import Mathlib

/-!
# sidecar-executor: drain notification, seed discovery, task translation

A shallow embedding of `executor_utils.go` (package `main`) together with the
parts of the `vault` and `container` packages that the executor relies on.

Conventions of the embedding

* A Go `string` is a Lean `String`; where the program indexes a string by
  bytes (`containerID[:12]`) the UTF-8 bytes are made explicit as a list of
  naturals below 256.
* Go `int` and `time.Duration` are 64-bit signed integers, embedded as `Int`;
  the one place where the program increments a counter wraps explicitly.
* Blocking calls and the goroutines are embedded with a logical clock: every
  call advances the clock, the watchers finish at an optional instant, and the
  goroutine that `notifyDrain` starts closes `watcherDoneChan` a scheduling lag
  after that instant.
* A run of `notifyDrain` yields the ordered list of its observable events and
  the way it ended (normal return or run-time panic).
-/

namespace SidecarExecutor

/-! ## strconv.ParseBool and shouldCheckSidecar -/

/-- Go `strconv.ParseBool`: accepts exactly twelve spellings, everything else
is a syntax error. -/
def ParseBool (str : String) : Except String Bool :=
  if str = "1" ∨ str = "t" ∨ str = "T" ∨ str = "TRUE" ∨ str = "true" ∨ str = "True" then
    .ok true
  else if str = "0" ∨ str = "f" ∨ str = "F" ∨ str = "FALSE" ∨ str = "false" ∨ str = "False" then
    .ok false
  else
    .error ("strconv.ParseBool: parsing " ++ str ++ ": invalid syntax")

/-- The label map `containerConfig.Config.Labels` of the container that the
executor created (a Go `map[string]string`, looked up by key). -/
abbrev Labels := List (String × String)

/-- Check if it should check Sidecar status, assuming enabled by default.
`containerConfig` and its `Config` are the non-nil values installed when the
task was launched; only the label map is read. -/
def shouldCheckSidecar (containerConfig : Labels) : Bool :=
  match containerConfig.lookup "SidecarDiscover" with
  | none => true
  | some value =>
    match ParseBool value with
    | .ok enabled => enabled
    | .error _ => true

/-! ## Go strings as byte sequences -/

/-- The bytes of a Go string, each a natural number below 256. -/
abbrev Bytes := List Nat

/-- UTF-8 encoding of one code point. -/
def utf8EncodeChar (c : Char) : Bytes :=
  let v := c.toNat
  if v ≤ 0x7f then [v]
  else if v ≤ 0x7ff then [0xc0 + v / 0x40, 0x80 + v % 0x40]
  else if v ≤ 0xffff then [0xe0 + v / 0x1000, 0x80 + v / 0x40 % 0x40, 0x80 + v % 0x40]
  else [0xf0 + v / 0x40000, 0x80 + v / 0x1000 % 0x40, 0x80 + v / 0x40 % 0x40, 0x80 + v % 0x40]

/-- The byte sequence a Go program sees for the string `s`. -/
def bytesOf (s : String) : Bytes :=
  (s.data.map utf8EncodeChar).flatten

/-- Go `len(s)` on a string: the number of bytes. -/
def len (s : String) : Nat :=
  (bytesOf s).length

/-- Go slice expression `s[:n]` on a string: the first `n` bytes, and a
run-time panic (`none`) when `n` exceeds `len(s)`. -/
def sliceTo (s : Bytes) (n : Nat) : Option Bytes :=
  if n ≤ s.length then some (s.take n) else none

/-- The string whose characters are the given (ASCII) bytes. -/
def asciiString (b : Bytes) : String :=
  String.mk (b.map Char.ofNat)

/-! ## net/url: the part of `URL.String` that the drain URL exercises -/

/-- The two escaping modes of `net/url` that `URL.String` applies to the host
and to the path. -/
inductive encoding where
  | encodePath
  | encodeHost
  deriving DecidableEq, Repr

/-- ASCII letters and digits. -/
def isAlnum (c : Nat) : Bool :=
  (0x61 ≤ c && c ≤ 0x7a) || (0x41 ≤ c && c ≤ 0x5a) || (0x30 ≤ c && c ≤ 0x39)

/-- Go `url.shouldEscape` for the path and host modes. The host mode lets the
sub-delimiters and `: [ ] < > "` through; the unreserved marks `- _ . ~` are
never escaped; of the reserved characters `$ & + , / : ; = ? @` the path mode
escapes only `?`; every other byte is escaped. -/
def shouldEscape (c : Nat) (mode : encoding) : Bool :=
  if isAlnum c then false
  else if mode = .encodeHost ∧
      c ∈ [0x21, 0x24, 0x26, 0x27, 0x28, 0x29, 0x2a, 0x2b, 0x2c, 0x3b, 0x3d, 0x3a,
           0x5b, 0x5d, 0x3c, 0x3e, 0x22] then false
  else if c ∈ [0x2d, 0x5f, 0x2e, 0x7e] then false
  else if c ∈ [0x24, 0x26, 0x2b, 0x2c, 0x2f, 0x3a, 0x3b, 0x3d, 0x3f, 0x40] then
    match mode with
    | .encodePath => c == 0x3f
    | .encodeHost => true
  else true

/-- The table `upperhex` of `net/url`. -/
def upperhex (n : Nat) : Char :=
  ['0', '1', '2', '3', '4', '5', '6', '7', '8', '9', 'A', 'B', 'C', 'D', 'E', 'F'].getD n '0'

/-- What `url.escape` writes for one input byte. -/
def escapeByte (mode : encoding) (c : Nat) : List Char :=
  if shouldEscape c mode then ['%', upperhex (c / 16), upperhex (c % 16)]
  else [Char.ofNat c]

/-- Go `url.escape` for the path and host modes: percent-encodes each byte
for which `shouldEscape` holds and copies the others. -/
def escape (s : Bytes) (mode : encoding) : String :=
  String.mk (s.map (escapeByte mode)).flatten

/-- The fields of Go `url.URL` that the program reads or sets, with `RawQuery`
kept to show that it is dropped. `Opaque`, `User`, `RawPath`, `ForceQuery`
and `Fragment` are never read by the program and are zero in the URL that it
builds. `Path` is a byte sequence because the program fills it with a byte
prefix of the container ID. -/
structure URL where
  Scheme : String := ""
  Host : String := ""
  Path : Bytes := []
  RawQuery : String := ""
  deriving DecidableEq, Repr

/-- Go `(*URL).EscapedPath` when `RawPath` is empty. -/
def URL.EscapedPath (u : URL) : String :=
  if u.Path = [0x2a] then "*" else escape u.Path .encodePath

/-- Go `(*URL).String` on a URL whose `Opaque`, `User`, `RawPath` and
`Fragment` are zero: `scheme:` when there is a scheme, `//` and the escaped
host when there is a scheme or a host, a `/` before a relative path that
follows a host, `./` before a first segment with a colon when nothing was
written so far, the escaped path, and `?query` when there is a query. -/
def URL.String (u : URL) : String :=
  let buf := if u.Scheme ≠ "" then u.Scheme ++ ":" else ""
  let buf :=
    if u.Scheme ≠ "" ∨ u.Host ≠ "" then
      let buf := if u.Host ≠ "" ∨ u.Path ≠ [] then buf ++ "//" else buf
      if u.Host ≠ "" then buf ++ escape (bytesOf u.Host) .encodeHost else buf
    else buf
  let path := u.EscapedPath
  let buf :=
    if path ≠ "" ∧ path.data.head? ≠ some '/' ∧ u.Host ≠ "" then buf ++ "/" else buf
  let buf :=
    if buf = "" ∧ (path.data.takeWhile (fun c => c ≠ '/')).contains ':' then buf ++ "./"
    else buf
  let buf := buf ++ path
  if u.RawQuery ≠ "" then buf ++ "?" ++ u.RawQuery else buf

/-! ## The executor, its configuration and its collaborators -/

/-- The configuration options that `executor_utils.go` reads. `SidecarRetryCount`
is a Go `int`, the two durations are `time.Duration` (nanoseconds, `int64`). -/
structure Config where
  SidecarUrl : String
  SidecarRetryCount : Int
  SidecarRetryDelay : Int
  SidecarDrainingDuration : Int
  MesosMasterPort : String

/-- What one call of `fetcher.Post` gives back: an error, or a response with
its status code. -/
inductive PostResult where
  | err (e : String)
  | resp (StatusCode : Int)
  deriving DecidableEq, Repr

/-- An HTTP response as `getMasterHostname` and `getWorkerHostnames` consume
it: `Body` is what `ioutil.ReadAll(resp.Body)` yields, a read error or the
bytes read. As `net/http` guarantees, the body of a response returned without
error is non-nil. -/
structure Response where
  Body : Except String String

/-- The `fetcher` of the executor. `Post` is indexed by the number of POST
calls made before, so that successive attempts may fare differently;
`PostDuration` is the time the call of that index blocks. -/
structure Fetcher where
  Get : String → Except String Response
  Post : Nat → String → String → PostResult
  PostDuration : Nat → Nat

/-- The element type of `masterStruct.Slaves`. -/
structure workersStruct where
  Hostname : String
  deriving DecidableEq, Repr

/-- What the executor takes from its surroundings: the process environment
(`os.Getenv`, empty for an unset name), `url.Parse`, and `json.Unmarshal` into
the two anonymous structs of the seed discovery (the decoded `master_hostname`,
the decoded `slaves` array). -/
structure World where
  Getenv : String → String
  urlParse : String → Except String URL
  unmarshalState : String → Except String String
  unmarshalSlaves : String → Except String (List workersStruct)

/-- The fields of `sidecarExecutor` that `executor_utils.go` uses.
`containerConfig` stands for `containerConfig.Config.Labels`. `watcherDone` is
the instant, counted from the entry of `notifyDrain`, at which the watchers of
`watcherWg` are done (0 when they were done before the entry, `none` when they
never finish). `closeLag` is the time that the goroutine started inside
`notifyDrain` needs from that instant until its `watcherWg.Wait()` has returned
and `close(watcherDoneChan)` has taken effect; it is up to the scheduler. -/
structure sidecarExecutor where
  config : Config
  containerConfig : Labels
  containerID : String
  fetcher : Fetcher
  watcherDone : Option Nat
  closeLag : Nat

/-! ## Seed discovery -/

/-- Talks to the local worker endpoint and discovers the Mesos master
hostname. -/
def getMasterHostname (w : World) (exec : sidecarExecutor) : Except String String :=
  let envEndpoint := w.Getenv "MESOS_AGENT_ENDPOINT"
  if len envEndpoint < 1 then
    .error "Can't get MESOS_AGENT_ENDPOINT from env! Won't provide Sidecar seeds."
  else
    let localEndpoint := "http://" ++ envEndpoint ++ "/state"
    match exec.fetcher.Get localEndpoint with
    | .error err =>
      .error ("Unable to fetch Mesos master info from worker endpoint: " ++ err)
    | .ok resp =>
      match resp.Body with
      | .error err =>
        .error ("Error reading response body from Mesos worker! '" ++ err ++ "'")
      | .ok body =>
        match w.unmarshalState body with
        | .error err =>
          .error ("Error parsing response body from Mesos worker! '" ++ err ++ "'")
        | .ok MasterHostname => .ok MasterHostname

/-- Returns all the current worker hostnames. -/
def getWorkerHostnames (w : World) (exec : sidecarExecutor) (masterHostname : String) :
    Except String (List String) :=
  let masterAddr :=
    if exec.config.MesosMasterPort ≠ "" then
      masterHostname ++ ":" ++ exec.config.MesosMasterPort
    else masterHostname
  let masterEndpoint := "http://" ++ masterAddr ++ "/slaves"
  match exec.fetcher.Get masterEndpoint with
  | .error err => .error ("Unable to fetch info from master endpoint: " ++ err)
  | .ok resp =>
    match resp.Body with
    | .error err =>
      .error ("Error reading response body from Mesos master! '" ++ err ++ "'")
    | .ok body =>
      match w.unmarshalSlaves body with
      | .error err =>
        .error ("Error parsing response body from Mesos master! '" ++ err ++ "'")
      | .ok Slaves => .ok (Slaves.map (fun worker => worker.Hostname))

/-- Go `strings.Join`. -/
def Join (elems : List String) (sep : String) : String :=
  sep.intercalate elems

/-- Appends to the passed environment the variable `SIDECAR_SEEDS` holding the
list of Sidecar seeds. The first component is the returned slice, the second
the lines passed to `log.Error`. -/
def addSidecarSeeds (w : World) (exec : sidecarExecutor) (envVars : List String) :
    List String × List String :=
  match getMasterHostname w exec with
  | .error err => (envVars, [err])
  | .ok masterHostname =>
    match getWorkerHostnames w exec masterHostname with
    | .error err => (envVars, [err])
    | .ok workerNames => (envVars ++ ["SIDECAR_SEEDS=" ++ Join workerNames ","], [])

/-! ## Drain notification -/

/-- The observable steps of one run of `notifyDrain`, each log call by its
format and arguments. -/
inductive Event where
  /-- The call `log.Errorf("Error parsing Sidercar URL: %s", err)`. -/
  | errorParse (err : String)
  /-- The call `log.Error("Attempted to drain service with empty container ID")`. -/
  | errorEmptyID
  /-- The call `log.Warnf("Setting service ID %q status to DRAINING in Sidecar", id)`. -/
  | warnSetting (id : Bytes)
  /-- The call `exec.fetcher.Post(url, contentType, body)`, entered at instant `time`. -/
  | post (time : Nat) (url : String) (contentType : String) (body : Option String)
  /-- The call `log.Warnf("Failed %d attempts to set service to DRAINING in Sidecar!", n)`. -/
  | warnFailed (n : Int)
  /-- The call `time.Sleep(d)`, entered at instant `time`. -/
  | sleep (time : Nat) (d : Int)
  /-- The final `select`, entered at `start` and left at `stop`. -/
  | wait (start : Nat) (stop : Nat)
  deriving DecidableEq, Repr

/-- How a run ends: a normal return at an instant, or a run-time panic. -/
inductive Outcome where
  | returned (time : Nat)
  | panicked (msg : String)
  deriving DecidableEq, Repr

/-- A finished run: the events in program order, and the outcome. -/
structure Run where
  events : List Event
  outcome : Outcome
  deriving DecidableEq, Repr

/-- The state threaded through the retry loop: the clock, the number of POST
calls made, and the events so far. -/
structure LoopState where
  now : Nat
  calls : Nat
  events : List Event
  deriving DecidableEq, Repr

/-- Go `int` arithmetic: the 64-bit two's-complement value of `x`. -/
def wrapInt (x : Int) : Int :=
  (x + 2 ^ 63) % 2 ^ 64 - 2 ^ 63

/-- A receive on `watcherDoneChan` is ready at instant `t`: the watchers were
done at an instant `d` and the goroutine that bridges the wait group to the
channel has closed the channel, `closeLag` later, by `t`. A poll made before
the goroutine got that far takes the `default` branch although the watchers
are done. -/
def watcherClosed (exec : sidecarExecutor) (t : Nat) : Bool :=
  match exec.watcherDone with
  | some d => decide (d + exec.closeLag ≤ t)
  | none => false

/-- The closure `drainer`: one POST to the drain URL with an empty content type
and a nil body (the call of index `call`), giving the status code and the
error. -/
def drainer (exec : sidecarExecutor) (sidecarDrainServiceUrl : URL) (call : Nat) :
    Int × Option String :=
  match exec.fetcher.Post call sidecarDrainServiceUrl.String "" with
  | .err e => (0, some e)
  | .resp StatusCode => (StatusCode, none)

/-- The loop labelled `RETRIES`, entered with counter `i`:
`for ; i <= SidecarRetryCount; i++`. A 202 without error leaves the loop; any
other result is logged, then a closed `watcherDoneChan` leaves the loop and
otherwise the loop sleeps `SidecarRetryDelay` (a non-positive duration returns
at once) and goes round. `fuel` bounds the number of loop tests; `none` means
that the bound was reached. -/
def retryLoop (exec : sidecarExecutor) (sidecarDrainServiceUrl : URL) :
    Nat → Int → LoopState → Option LoopState
  | 0, _, _ => none
  | fuel + 1, i, st =>
    if i ≤ exec.config.SidecarRetryCount then
      let (status, err) := drainer exec sidecarDrainServiceUrl st.calls
      let st1 : LoopState :=
        { now := st.now + exec.fetcher.PostDuration st.calls
          calls := st.calls + 1
          events := st.events ++ [Event.post st.now sidecarDrainServiceUrl.String "" none] }
      if err = none ∧ status = 202 then
        some st1
      else
        let st2 : LoopState :=
          { st1 with events := st1.events ++ [Event.warnFailed (wrapInt (i + 1))] }
        if watcherClosed exec st2.now then
          some st2
        else
          let st3 : LoopState :=
            { st2 with
              now := st2.now + exec.config.SidecarRetryDelay.toNat
              events := st2.events ++ [Event.sleep st2.now exec.config.SidecarRetryDelay] }
          retryLoop exec sidecarDrainServiceUrl fuel (wrapInt (i + 1)) st3
    else
      some st

/-- The end of `notifyDrain`: `time.NewTicker` panics on a non-positive
duration; the `select` returns when the ticker fires or when `watcherDoneChan`
is closed, whichever comes first, at once if it is closed already. -/
def finalWait (exec : sidecarExecutor) (st : LoopState) : Run :=
  let d := exec.config.SidecarDrainingDuration
  if d ≤ 0 then
    { events := st.events, outcome := .panicked "non-positive interval for NewTicker" }
  else
    let stop :=
      match exec.watcherDone with
      | some t =>
        if t + exec.closeLag ≤ st.now then st.now
        else min (t + exec.closeLag) (st.now + d.toNat)
      | none => st.now + d.toNat
    { events := st.events ++ [Event.wait st.now stop], outcome := .returned stop }

/-- Instructs Sidecar to set the current service's status to DRAINING. The
clock starts at 0 when the function is entered; `none` means that the retry
loop did not finish within `fuel` loop tests. -/
def notifyDrain (w : World) (exec : sidecarExecutor) (fuel : Nat) : Option Run :=
  if !shouldCheckSidecar exec.containerConfig || exec.config.SidecarDrainingDuration == 0 then
    some { events := [], outcome := .returned 0 }
  else
    match w.urlParse exec.config.SidecarUrl with
    | .error err => some { events := [Event.errorParse err], outcome := .returned 0 }
    | .ok sidecarUrl =>
      if exec.containerID = "" then
        some { events := [Event.errorEmptyID], outcome := .returned 0 }
      else
        match sliceTo (bytesOf exec.containerID) 12 with
        | none =>
          some { events := [], outcome := .panicked "slice bounds out of range [:12]" }
        | some id =>
          let sidecarDrainServiceUrl : URL :=
            { Scheme := sidecarUrl.Scheme
              Host := sidecarUrl.Host
              Path := bytesOf "/api/services/" ++ id ++ bytesOf "/drain" }
          let st0 : LoopState := { now := 0, calls := 0, events := [Event.warnSetting id] }
          match retryLoop exec sidecarDrainServiceUrl fuel 0 st0 with
          | none => none
          | some st => some (finalWait exec st)

/-- The event is a POST call. -/
def Event.isPost : Event → Bool
  | .post .. => true
  | _ => false

/-- The event is a POST call entered at or after instant `t`. -/
def Event.isPostFrom (t : Nat) : Event → Bool
  | .post time .. => decide (t ≤ time)
  | _ => false

/-- The POST calls of a run, in order. -/
def Run.posts (r : Run) : List Event :=
  r.events.filter Event.isPost

/-- The POST calls of a run entered at or after instant `t`. -/
def Run.postsFrom (r : Run) (t : Nat) : List Event :=
  r.events.filter (Event.isPostFrom t)

end SidecarExecutor

/-! ## Package vault -/

namespace Vault

/-- Modelled from the spec: `isVaultPath` of package `vault`, whose source is
absent from the repository snapshot (only `vault_test.go` is present). A value
is a secret reference exactly when it begins with the reserved scheme prefix
`vault://`. -/
def isVaultPath (value : String) : Bool :=
  "vault://".data.isPrefixOf value.data

/-- A character other than the separator `=` of an environment entry. -/
def notSep (c : Char) : Bool :=
  !(c == '=')

/-- Modelled from the spec: the split of a `KEY=VALUE` entry at its first `=`
(package `vault`, source absent); `none` for an entry without `=`. -/
def splitEnv (env : String) : Option (String × String) :=
  if '=' ∈ env.data then
    some (String.mk (env.data.takeWhile notSep),
          String.mk ((env.data.dropWhile notSep).drop 1))
  else none

/-- Modelled from the spec: the treatment of one entry by `DecryptAllEnv`
(package `vault`, source absent). An entry whose value is a secret reference
has the value replaced by what `ReadSecretValue` resolves it to, the key kept;
a failed resolution is propagated with context; any other entry passes
unchanged. -/
def decryptEnv (ReadSecretValue : String → Except String String) (env : String) :
    Except String String :=
  match splitEnv env with
  | none => .ok env
  | some (envName, envValue) =>
    if isVaultPath envValue then
      match ReadSecretValue envValue with
      | .error err => .error ("Failed to decrypt " ++ envName ++ ": " ++ err)
      | .ok decrypted => .ok (envName ++ "=" ++ decrypted)
    else .ok env

/-- Modelled from the spec: `EnvVault.DecryptAllEnv` (package `vault`, source
absent; the spec calls it `ResolveAll`). Walks the environment list in order;
the first resolution error aborts the whole call. `ReadSecretValue` is the
resolver of the secret store. -/
def DecryptAllEnv (ReadSecretValue : String → Except String String) :
    List String → Except String (List String)
  | [] => .ok []
  | env :: envs =>
    match decryptEnv ReadSecretValue env with
    | .error err => .error err
    | .ok decrypted =>
      match DecryptAllEnv ReadSecretValue envs with
      | .error err => .error err
      | .ok rest => .ok (decrypted :: rest)

/-- The secret store of `vault_test.go` as far as `Test_DecryptEnvs` resolves
references through it: the reference `vault://secure/validKey` holds
`secret_value`, and other references are not resolved here. -/
def mockReadSecretValue (ref : String) : Except String String :=
  if ref = "vault://secure/validKey" then .ok "secret_value"
  else .error "Unexpected"

end Vault

/-! ## Package container -/

namespace Container

/-- Go `map[string]V` as a list of entries with distinct keys; only membership,
lookup and size are observable. -/
abbrev GoMap (V : Type) := List (String × V)

/-- Map assignment `m[k] = v`: overwrites the entry of an existing key, adds
an entry for a new one. -/
def GoMap.set {V : Type} (m : GoMap V) (k : String) (v : V) : GoMap V :=
  match m with
  | [] => [(k, v)]
  | (k1, v1) :: rest => if k1 = k then (k, v) :: rest else (k1, v1) :: GoMap.set rest k v

/-- Access mode of a Mesos volume. -/
inductive VolumeMode where
  | RW
  | RO
  deriving DecidableEq, Repr

/-- A volume entry of the task: container path, host path, optional mode. -/
structure Volume where
  Mode : Option VolumeMode
  ContainerPath : String
  HostPath : String
  deriving DecidableEq, Repr

/-- A port-mapping entry of the task: container port, optional host port
(both `uint32`). -/
structure PortMapping where
  ContainerPort : Nat
  HostPort : Option Nat
  deriving DecidableEq, Repr

/-- The parts of a Mesos `TaskInfo` that the translation of ports and volumes
reads. -/
structure TaskInfo where
  TaskId : String
  Image : String
  PortMappings : List PortMapping
  Volumes : List Volume
  deriving DecidableEq, Repr

/-- A Docker port binding. -/
structure PortBinding where
  HostIP : String := ""
  HostPort : String
  deriving DecidableEq, Repr

/-- The Docker `HostConfig` fields filled from ports and volumes. -/
structure HostConfig where
  Binds : List String
  PortBindings : GoMap (List PortBinding)
  deriving DecidableEq, Repr

/-- The Docker `Config` fields filled from the image and the ports. -/
structure DockerConfig where
  Image : String
  ExposedPorts : GoMap Unit
  deriving DecidableEq, Repr

/-- The container-creation request. -/
structure CreateContainerOptions where
  Name : String
  Config : DockerConfig
  HostConfig : HostConfig
  deriving DecidableEq, Repr

/-- Modelled from the spec: the map key of a container port (package
`container`, source absent): the port in decimal followed by `/tcp`. -/
def portKey (port : Nat) : String :=
  toString port ++ "/tcp"

/-- Modelled from the spec: the bind string of one volume (package `container`,
source absent): host path, colon, container path, and `:ro` exactly when the
mode is read-only. -/
def bindString (v : Volume) : String :=
  v.HostPath ++ ":" ++ v.ContainerPath ++ (if v.Mode = some .RO then ":ro" else "")

/-- Modelled from the spec: the bind list (package `container`, source absent),
one bind string per volume entry in input order. -/
def getBinds (task : TaskInfo) : List String :=
  task.Volumes.map bindString

/-- Modelled from the spec: the exposed ports (package `container`, source
absent): every mapping entry assigns the key of its container port. -/
def getExposedPorts (task : TaskInfo) : GoMap Unit :=
  task.PortMappings.foldl (fun m pm => m.set (portKey pm.ContainerPort) ()) []

/-- Modelled from the spec: the port bindings (package `container`, source
absent): every mapping entry that has a host port assigns, under the key of
its container port, one binding whose host port is the decimal rendering; an
entry without a host port assigns nothing. -/
def getPortBindings (task : TaskInfo) : GoMap (List PortBinding) :=
  task.PortMappings.foldl
    (fun m pm =>
      match pm.HostPort with
      | none => m
      | some hp => m.set (portKey pm.ContainerPort) [{ HostPort := toString hp }])
    []

/-- Modelled from the spec: `ConfigForTask` of package `container` (source
absent, only `container_test.go` is present), restricted to the name, the
image, the ports and the volumes. -/
def ConfigForTask (task : TaskInfo) : CreateContainerOptions :=
  { Name := task.TaskId
    Config := { Image := task.Image, ExposedPorts := getExposedPorts task }
    HostConfig := { Binds := getBinds task, PortBindings := getPortBindings task } }

/-- The number that a string of decimal digits denotes. -/
def digitsValue (ds : List Char) : Nat :=
  ds.foldl (fun acc c => 10 * acc + (c.toNat - 48)) 0

/-- The task of `Test_ConfigGeneration` in `container_test.go`, as to its ID,
image, port mappings and volumes. -/
def testTask : TaskInfo where
  TaskId := "nginx-2392676-1479746266455-1-dev_singularity_sick_sing-DEFAULT"
  Image := "foo/foo:foo"
  PortMappings := [{ ContainerPort := 8080, HostPort := none },
                   { ContainerPort := 443, HostPort := some 10270 }]
  Volumes := [{ Mode := some .RO, ContainerPath := "/tmp/somewhere", HostPath := "/tmp/elsewhere" },
              { Mode := none, ContainerPath := "/tmp/foo", HostPath := "/tmp/bar" }]

end Container

/-! ## Concrete inputs -/

namespace SidecarExecutor

/-- A `url.Parse` table for the default registry address and a few variants. -/
def sampleParse (rawurl : String) : Except String URL :=
  if rawurl = "http://localhost:7777/state.json" then
    .ok { Scheme := "http", Host := "localhost:7777", Path := bytesOf "/state.json" }
  else if rawurl = "https://sidecar.local/api/state.json?pretty=1" then
    .ok { Scheme := "https", Host := "sidecar.local", Path := bytesOf "/api/state.json",
          RawQuery := "pretty=1" }
  else if rawurl = "http://héllo.local/state.json" then
    .ok { Scheme := "http", Host := "héllo.local", Path := bytesOf "/state.json" }
  else if rawurl = "localhost" then
    .ok { Path := bytesOf "localhost" }
  else if rawurl = ":" then
    .error "parse :: missing protocol scheme"
  else .error ("parse " ++ rawurl ++ ": invalid URI")

/-- A process environment with the agent endpoint set, the sample `url.Parse`,
and JSON decoders that know two documents. -/
def sampleWorld : World where
  Getenv := fun name => if name = "MESOS_AGENT_ENDPOINT" then "10.0.0.1:5051" else ""
  urlParse := sampleParse
  unmarshalState := fun body =>
    if body = "STATE" then .ok "master.mesos" else .error "invalid character"
  unmarshalSlaves := fun body =>
    if body = "SLAVES" then .ok [⟨"worker1"⟩, ⟨"worker2"⟩] else .error "invalid character"

/-- A registry that fails every POST: odd calls with a transport error, even
calls with status 500; every call takes `d` clock units. The agent and the
master answer the two GET requests of the seed discovery. -/
def failingFetcher (d : Nat) : Fetcher where
  Get := fun url =>
    if url = "http://10.0.0.1:5051/state" then .ok ⟨.ok "STATE"⟩
    else if url = "http://master.mesos:5050/slaves" then .ok ⟨.ok "SLAVES"⟩
    else .error "connection refused"
  Post := fun call _ _ => if call % 2 = 1 then .err "connection refused" else .resp 500
  PostDuration := fun _ => d

/-- The configuration with the default registry address, retry count `n`,
retry delay `delay` and draining duration `drain`. -/
def sampleConfig (n delay drain : Int) : Config where
  SidecarUrl := "http://localhost:7777/state.json"
  SidecarRetryCount := n
  SidecarRetryDelay := delay
  SidecarDrainingDuration := drain
  MesosMasterPort := "5050"

/-- An executor over the failing registry, each POST taking one clock unit,
with a goroutine that closes the channel the instant the watchers are done. -/
def sampleExec (n delay drain : Int) (id : String) (watcherDone : Option Nat) :
    sidecarExecutor where
  config := sampleConfig n delay drain
  containerConfig := []
  containerID := id
  fetcher := failingFetcher 1
  watcherDone := watcherDone
  closeLag := 0

end SidecarExecutor

/-! # Properties -/

namespace SidecarExecutor

/-- The spellings that `ParseBool` reads as false. -/
theorem ParseBool_false_iff (value : String) :
    ParseBool value = .ok false ↔ value ∈ ["0", "f", "F", "false", "FALSE", "False"] := by
  unfold ParseBool
  split_ifs with h1 h2
  · rcases h1 with h | h | h | h | h | h <;> subst h <;> simp
  · rcases h2 with h | h | h | h | h | h <;> subst h <;> simp
  · simp only [List.mem_cons, List.mem_singleton, List.mem_nil_iff, or_false]
    constructor
    · intro h; cases h
    · intro h
      exact absurd (by tauto) h2

/-- C5: draining is on by default and only the label switches it off.
shouldCheckSidecar returns false exactly when the label SidecarDiscover is
present with one of the values 0, f, F, false, FALSE, False, which are exactly
the values that ParseBool reads as false; it returns true when the label is
absent, when its value parses as true, and when its value does not parse. -/
theorem shouldCheckSidecar_false_iff (containerConfig : Labels) :
    (shouldCheckSidecar containerConfig = false ↔
      ∃ value, containerConfig.lookup "SidecarDiscover" = some value ∧
        value ∈ ["0", "f", "F", "false", "FALSE", "False"]) ∧
    (∀ value, ParseBool value = .ok false ↔
        value ∈ ["0", "f", "F", "false", "FALSE", "False"]) ∧
    (containerConfig.lookup "SidecarDiscover" = none →
      shouldCheckSidecar containerConfig = true) ∧
    (∀ value, containerConfig.lookup "SidecarDiscover" = some value →
      ParseBool value = .ok true → shouldCheckSidecar containerConfig = true) ∧
    (∀ value err, containerConfig.lookup "SidecarDiscover" = some value →
      ParseBool value = .error err → shouldCheckSidecar containerConfig = true) := by
  refine ⟨?_, ParseBool_false_iff, ?_, ?_, ?_⟩
  · unfold shouldCheckSidecar
    cases hl : containerConfig.lookup "SidecarDiscover" with
    | none => simp
    | some value =>
      simp only [Option.some.injEq, exists_eq_left']
      rw [← ParseBool_false_iff]
      cases hp : ParseBool value with
      | error e => simp
      | ok b => cases b <;> simp
  · intro h; simp [shouldCheckSidecar, h]
  · intro value h hp; simp [shouldCheckSidecar, h, hp]
  · intro value err h hp; simp [shouldCheckSidecar, h, hp]

end SidecarExecutor

namespace SidecarExecutor

theorem utf8EncodeChar_ne_nil (c : Char) : utf8EncodeChar c ≠ [] := by
  unfold utf8EncodeChar
  simp only
  split_ifs <;> simp

theorem len_lt_one_iff (s : String) : len s < 1 ↔ s = "" := by
  unfold len bytesOf
  rcases s with ⟨l⟩
  cases l with
  | nil => simp
  | cons c cs =>
    have h := utf8EncodeChar_ne_nil c
    have : 0 < (utf8EncodeChar c).length := List.length_pos.mpr h
    simp only [List.map_cons, List.flatten_cons, List.length_append]
    constructor
    · intro h'; omega
    · intro h'; exact absurd h' (by simp [String.ext_iff])

/-- C2: when the SidecarDiscover label disables draining, or the configured
draining duration is zero, or the container ID is empty, notifyDrain returns
at instant 0 without a single POST, whatever the rest of the configuration,
the registry, the watcher and the loop bound are. -/
theorem notifyDrain_noop (w : World) (exec : sidecarExecutor) (fuel : Nat)
    (h : shouldCheckSidecar exec.containerConfig = false ∨
      exec.config.SidecarDrainingDuration = 0 ∨ exec.containerID = "") :
    ∃ r, notifyDrain w exec fuel = some r ∧ r.posts = [] ∧ r.outcome = .returned 0 := by
  unfold notifyDrain
  by_cases h1 : (!shouldCheckSidecar exec.containerConfig ||
      exec.config.SidecarDrainingDuration == 0) = true
  · rw [if_pos h1]
    exact ⟨_, rfl, rfl, rfl⟩
  · rw [if_neg h1]
    rcases h with h | h | h
    · simp [h] at h1
    · simp [h] at h1
    · cases hp : w.urlParse exec.config.SidecarUrl with
      | error err => exact ⟨_, rfl, rfl, rfl⟩
      | ok u =>
        simp only [h, if_true]
        exact ⟨_, rfl, rfl, rfl⟩

theorem notifyDrain_noop_witness :
    (∃ r, notifyDrain sampleWorld
        { sampleExec 3 10 100 "0123456789abcdef" none with
          containerConfig := [("SidecarDiscover", "false")] } 0 = some r ∧
        r.posts = [] ∧ r.outcome = .returned 0) ∧
    (∃ r, notifyDrain sampleWorld (sampleExec 3 10 0 "0123456789abcdef" none) 0 = some r ∧
        r.posts = [] ∧ r.outcome = .returned 0) ∧
    (∃ r, notifyDrain sampleWorld (sampleExec 3 10 100 "" none) 0 = some r ∧
        r.posts = [] ∧ r.outcome = .returned 0) :=
  ⟨notifyDrain_noop _ _ _ (Or.inl (by decide)),
   notifyDrain_noop _ _ _ (Or.inr (Or.inl rfl)),
   notifyDrain_noop _ _ _ (Or.inr (Or.inr rfl))⟩

/-- With draining enabled, a non-zero draining duration and a SidecarUrl that
parses, every non-empty container ID shorter than 12 bytes makes notifyDrain
panic at `containerID[:12]`, before any event. -/
theorem notifyDrain_short_id (w : World) (exec : sidecarExecutor) (fuel : Nat) (u : URL)
    (hcheck : shouldCheckSidecar exec.containerConfig = true)
    (hdur : exec.config.SidecarDrainingDuration ≠ 0)
    (hparse : w.urlParse exec.config.SidecarUrl = .ok u)
    (hne : exec.containerID ≠ "")
    (hshort : len exec.containerID < 12) :
    notifyDrain w exec fuel =
      some { events := [], outcome := .panicked "slice bounds out of range [:12]" } := by
  unfold notifyDrain
  have h1 : ¬ ((!shouldCheckSidecar exec.containerConfig ||
      exec.config.SidecarDrainingDuration == 0) = true) := by
    simp [hcheck, hdur]
  have h3 : sliceTo (bytesOf exec.containerID) 12 = none := by
    unfold sliceTo
    exact if_neg (by unfold len at hshort; omega)
  rw [if_neg h1, hparse]
  simp only [if_neg hne, h3]

/-- C10: with draining enabled, a positive draining duration, a SidecarUrl that
parses and the three-byte container ID "abc", notifyDrain panics on
containerID[:12] before it logs or posts anything. -/
theorem notifyDrain_short_id_panics :
    notifyDrain sampleWorld (sampleExec 3 10 100 "abc" none) 8 =
      some { events := [], outcome := .panicked "slice bounds out of range [:12]" } := by
  decide

end SidecarExecutor

namespace SidecarExecutor

/-- The master lookup succeeds exactly when the agent endpoint is set, the GET
of its state answers, the body is read and the JSON decodes. -/
theorem getMasterHostname_ok_iff (w : World) (exec : sidecarExecutor) (m : String) :
    getMasterHostname w exec = .ok m ↔
      w.Getenv "MESOS_AGENT_ENDPOINT" ≠ "" ∧
      ∃ resp body,
        exec.fetcher.Get ("http://" ++ w.Getenv "MESOS_AGENT_ENDPOINT" ++ "/state") = .ok resp ∧
        resp.Body = .ok body ∧ w.unmarshalState body = .ok m := by
  unfold getMasterHostname
  simp only
  by_cases he : w.Getenv "MESOS_AGENT_ENDPOINT" = ""
  · have : len (w.Getenv "MESOS_AGENT_ENDPOINT") < 1 := (len_lt_one_iff _).mpr he
    rw [if_pos this]
    simp [he]
  · have : ¬ len (w.Getenv "MESOS_AGENT_ENDPOINT") < 1 := fun h => he ((len_lt_one_iff _).mp h)
    rw [if_neg this]
    cases hg : exec.fetcher.Get ("http://" ++ w.Getenv "MESOS_AGENT_ENDPOINT" ++ "/state") with
    | error e => simp [he]
    | ok resp =>
      cases hb : resp.Body with
      | error e => simp [he, hb]
      | ok body =>
        cases hu : w.unmarshalState body with
        | error e => simp [he, hb, hu]
        | ok mh => simp [he, hb, hu]

/-- The worker lookup succeeds exactly when the GET of the master's slaves
answers, the body is read and the JSON decodes; the result lists the hostnames
in response order. -/
theorem getWorkerHostnames_ok_iff (w : World) (exec : sidecarExecutor) (m : String)
    (hs : List String) :
    getWorkerHostnames w exec m = .ok hs ↔
      ∃ resp body Slaves,
        exec.fetcher.Get ("http://" ++
          (if exec.config.MesosMasterPort ≠ "" then m ++ ":" ++ exec.config.MesosMasterPort
           else m) ++ "/slaves") = .ok resp ∧
        resp.Body = .ok body ∧ w.unmarshalSlaves body = .ok Slaves ∧
        hs = Slaves.map (fun worker => worker.Hostname) := by
  unfold getWorkerHostnames
  simp only
  cases hg : exec.fetcher.Get ("http://" ++
      (if exec.config.MesosMasterPort ≠ "" then m ++ ":" ++ exec.config.MesosMasterPort
       else m) ++ "/slaves") with
  | error e => simp
  | ok resp =>
    cases hb : resp.Body with
    | error e => simp [hb]
    | ok body =>
      cases hu : w.unmarshalSlaves body with
      | error e => simp [hb, hu]
      | ok sl => simp [hb, hu, eq_comm]

/-- C6: addSidecarSeeds returns its argument unchanged or followed by exactly
one entry. When the master lookup gives m and the worker lookup gives the
hostnames hs, the result is the argument followed by SIDECAR_SEEDS= and hs
joined by commas, and nothing is logged. When either lookup fails the result is
the argument itself and the error is logged, not returned; an unset or empty
MESOS_AGENT_ENDPOINT, a failed GET, a failed body read and malformed JSON each
make the lookup concerned fail. -/
theorem addSidecarSeeds_spec (w : World) (exec : sidecarExecutor) (envVars : List String) :
    ((addSidecarSeeds w exec envVars).1 = envVars ∨
      ∃ entry, (addSidecarSeeds w exec envVars).1 = envVars ++ [entry]) ∧
    (∀ m hs, getMasterHostname w exec = .ok m → getWorkerHostnames w exec m = .ok hs →
      addSidecarSeeds w exec envVars =
        (envVars ++ ["SIDECAR_SEEDS=" ++ Join hs ","], [])) ∧
    (∀ err, getMasterHostname w exec = .error err →
      addSidecarSeeds w exec envVars = (envVars, [err])) ∧
    (∀ m err, getMasterHostname w exec = .ok m → getWorkerHostnames w exec m = .error err →
      addSidecarSeeds w exec envVars = (envVars, [err])) ∧
    (w.Getenv "MESOS_AGENT_ENDPOINT" = "" → ∃ err, getMasterHostname w exec = .error err) ∧
    (∀ e, exec.fetcher.Get ("http://" ++ w.Getenv "MESOS_AGENT_ENDPOINT" ++ "/state") = .error e →
      ∃ err, getMasterHostname w exec = .error err) ∧
    (∀ resp e,
      exec.fetcher.Get ("http://" ++ w.Getenv "MESOS_AGENT_ENDPOINT" ++ "/state") = .ok resp →
      resp.Body = .error e → ∃ err, getMasterHostname w exec = .error err) ∧
    (∀ resp body e,
      exec.fetcher.Get ("http://" ++ w.Getenv "MESOS_AGENT_ENDPOINT" ++ "/state") = .ok resp →
      resp.Body = .ok body → w.unmarshalState body = .error e →
      ∃ err, getMasterHostname w exec = .error err) ∧
    (∀ m, (∀ resp body Slaves,
        exec.fetcher.Get ("http://" ++
          (if exec.config.MesosMasterPort ≠ "" then m ++ ":" ++ exec.config.MesosMasterPort
           else m) ++ "/slaves") = .ok resp →
        resp.Body = .ok body → w.unmarshalSlaves body ≠ .ok Slaves) →
      ∃ err, getWorkerHostnames w exec m = .error err) := by
  have ok_or_err : ∀ {α : Type} (x : Except String α), (∃ a, x = .ok a) ∨ ∃ e, x = .error e := by
    intro α x; cases x with
    | ok a => exact Or.inl ⟨a, rfl⟩
    | error e => exact Or.inr ⟨e, rfl⟩
  have master_err : ∀ (P : Prop), (∀ m, getMasterHostname w exec = .ok m → ¬ P) → P →
      ∃ err, getMasterHostname w exec = .error err := by
    intro P hP hp
    rcases ok_or_err (getMasterHostname w exec) with ⟨m, hm⟩ | h
    · exact absurd hp (hP m hm)
    · exact h
  refine ⟨?_, ?_, ?_, ?_, ?_, ?_, ?_, ?_, ?_⟩
  · unfold addSidecarSeeds
    cases hm : getMasterHostname w exec with
    | error e => exact Or.inl rfl
    | ok m =>
      cases hw : getWorkerHostnames w exec m with
      | error e => simp [hw]
      | ok hs => simp [hw]
  · intro m hs h1 h2; simp [addSidecarSeeds, h1, h2]
  · intro err h1; simp [addSidecarSeeds, h1]
  · intro m err h1 h2; simp [addSidecarSeeds, h1, h2]
  · intro h
    exact master_err _ (fun m hm => ((getMasterHostname_ok_iff w exec m).mp hm).1) h
  · intro e h
    refine master_err _ (fun m hm hget => ?_) h
    obtain ⟨_, resp, body, hg, _⟩ := (getMasterHostname_ok_iff w exec m).mp hm
    rw [hget] at hg; cases hg
  · intro resp e hget hb
    refine master_err _ (fun m hm hbody => ?_) hb
    obtain ⟨_, resp1, body, hg, hb1, _⟩ := (getMasterHostname_ok_iff w exec m).mp hm
    rw [hget] at hg; cases hg
    rw [hbody] at hb1; cases hb1
  · intro resp body e hget hb hu
    refine master_err _ (fun m hm hun => ?_) hu
    obtain ⟨_, resp1, body1, hg, hb1, hu1⟩ := (getMasterHostname_ok_iff w exec m).mp hm
    rw [hget] at hg; cases hg
    rw [hb] at hb1; cases hb1
    rw [hun] at hu1; cases hu1
  · intro m h
    rcases ok_or_err (getWorkerHostnames w exec m) with ⟨hs, hm⟩ | h1
    · obtain ⟨resp, body, Slaves, hg, hb, hu, _⟩ := (getWorkerHostnames_ok_iff w exec m hs).mp hm
      exact absurd hu (h resp body Slaves hg hb)
    · exact h1

theorem addSidecarSeeds_spec_witness :
    addSidecarSeeds sampleWorld (sampleExec 3 10 100 "0123456789abcdef" none) ["A=B"] =
      (["A=B", "SIDECAR_SEEDS=worker1,worker2"], []) :=
  (addSidecarSeeds_spec sampleWorld (sampleExec 3 10 100 "0123456789abcdef" none) ["A=B"]).2.1
    "master.mesos" ["worker1", "worker2"] (by rfl) (by rfl)

end SidecarExecutor

namespace Vault

theorem splitEnv_eq_some (env : String) (h : '=' ∈ env.data) :
    splitEnv env = some (String.mk (env.data.takeWhile notSep),
      String.mk ((env.data.dropWhile notSep).drop 1)) := by
  unfold splitEnv
  rw [if_pos h]

theorem takeWhile_notSep_not_mem (l : List Char) : '=' ∉ l.takeWhile notSep := by
  intro h
  have := List.mem_takeWhile_imp h
  simp [notSep] at this

theorem takeWhile_append_sep (k rest : List Char) (hk : '=' ∉ k) :
    (k ++ '=' :: rest).takeWhile notSep = k ∧
    ((k ++ '=' :: rest).dropWhile notSep).drop 1 = rest := by
  induction k with
  | nil => simp [List.takeWhile, List.dropWhile, notSep]
  | cons c cs ih =>
    have hc : notSep c = true := by
      have : c ≠ '=' := fun h => hk (by simp [h])
      simp [notSep, this]
    have hcs : '=' ∉ cs := fun h => hk (by simp [h])
    obtain ⟨h1, h2⟩ := ih hcs
    constructor
    · rw [List.cons_append, List.takeWhile_cons, hc]; simp only [if_true]; rw [h1]
    · rw [List.cons_append, List.dropWhile_cons, hc]; simp only [if_true]; exact h2

/-- An entry put together from a key without `=`, an `=` and a value splits
back into that key and that value. -/
theorem splitEnv_join (k v : String) (hk : '=' ∉ k.data) :
    splitEnv (k ++ "=" ++ v) = some (k, v) := by
  have hd : (k ++ "=" ++ v).data = k.data ++ '=' :: v.data := by
    simp [String.data_append]
  have hm : '=' ∈ (k ++ "=" ++ v).data := by rw [hd]; simp
  rw [splitEnv_eq_some _ hm, hd]
  obtain ⟨h1, h2⟩ := takeWhile_append_sep k.data v.data hk
  rw [h1, h2]

/-- A split entry is its key, an `=` and its value, and the key has no `=`. -/
theorem splitEnv_key (env k v : String) (h : splitEnv env = some (k, v)) :
    '=' ∉ k.data ∧ env = k ++ "=" ++ v := by
  unfold splitEnv at h
  split_ifs at h with hm
  simp only [Option.some.injEq, Prod.mk.injEq] at h
  obtain ⟨hk, hv⟩ := h
  subst hk; subst hv
  refine ⟨takeWhile_notSep_not_mem _, ?_⟩
  apply String.ext
  simp only [String.data_append]
  have hsplit := List.takeWhile_append_dropWhile notSep env.data
  cases hdw : env.data.dropWhile notSep with
  | nil =>
    rw [hdw, List.append_nil] at hsplit
    rw [← hsplit] at hm
    exact absurd hm (takeWhile_notSep_not_mem _)
  | cons c rest =>
    have hne : env.data.dropWhile notSep ≠ [] := by rw [hdw]; simp
    have hh := List.head_dropWhile_not notSep env.data hne
    have hc : c = '=' := by
      have : (env.data.dropWhile notSep).head hne = c := by simp [hdw]
      rw [this] at hh
      simpa [notSep] using hh
    subst hc
    rw [hdw] at hsplit
    simpa using hsplit.symm

end Vault

namespace Vault

/-- One entry with an `=` whose reference, if it is one, resolves: the output
entry has the same key, and the resolved value or the entry itself. -/
theorem decryptEnv_ok (read : String → Except String String) (env : String)
    (hkv : '=' ∈ env.data)
    (hok : ∀ k v, splitEnv env = some (k, v) → isVaultPath v = true → ∃ s, read v = .ok s) :
    ∃ o, decryptEnv read env = .ok o ∧
      ∃ k v v', splitEnv env = some (k, v) ∧ splitEnv o = some (k, v') ∧
        (if isVaultPath v = true then read v = .ok v' else o = env) := by
  have hs := splitEnv_eq_some env hkv
  generalize String.mk (env.data.takeWhile notSep) = k at hs
  generalize String.mk ((env.data.dropWhile notSep).drop 1) = v at hs
  unfold decryptEnv
  rw [hs]
  simp only
  by_cases hv : isVaultPath v = true
  · obtain ⟨s, hsres⟩ := hok k v hs hv
    rw [if_pos hv, hsres]
    refine ⟨_, rfl, k, v, s, rfl, ?_, ?_⟩
    · exact splitEnv_join k s (splitEnv_key env k v hs).1
    · rw [if_pos hv]; exact hsres
  · rw [if_neg hv]
    refine ⟨_, rfl, k, v, v, rfl, hs, ?_⟩
    rw [if_neg hv]

/-- One entry whose value is a reference that fails to resolve: an error. -/
theorem decryptEnv_error (read : String → Except String String) (env k v err : String)
    (hs : splitEnv env = some (k, v)) (hv : isVaultPath v = true) (hr : read v = .error err) :
    ∃ e, decryptEnv read env = .error e := by
  unfold decryptEnv
  rw [hs]
  simp only
  rw [if_pos hv, hr]
  exact ⟨_, rfl⟩

/-- C7: for an environment list of KEY=VALUE entries whose secret references
all resolve, DecryptAllEnv returns a list of the same length in which, entry
by entry in order, the key is the key of the input entry and the value is the
resolved secret when the input value begins with vault://, the entry being the
input entry itself otherwise. When some reference of the list fails to
resolve, the call returns an error and no list. -/
theorem DecryptAllEnv_spec (read : String → Except String String) (envs : List String) :
    ((∀ e ∈ envs, '=' ∈ e.data) →
      (∀ e ∈ envs, ∀ k v, splitEnv e = some (k, v) → isVaultPath v = true →
        ∃ s, read v = .ok s) →
      ∃ out, DecryptAllEnv read envs = .ok out ∧ out.length = envs.length ∧
        List.Forall₂
          (fun env o => ∃ k v v', splitEnv env = some (k, v) ∧ splitEnv o = some (k, v') ∧
            (if isVaultPath v = true then read v = .ok v' else o = env))
          envs out) ∧
    ((∃ e ∈ envs, ∃ k v err, splitEnv e = some (k, v) ∧ isVaultPath v = true ∧
        read v = .error err) →
      ∃ err, DecryptAllEnv read envs = .error err) := by
  induction envs with
  | nil =>
    refine ⟨fun _ _ => ⟨[], rfl, rfl, List.Forall₂.nil⟩, ?_⟩
    rintro ⟨e, he, _⟩
    cases he
  | cons env envs ih =>
    constructor
    · intro hkv hok
      obtain ⟨o, ho, hrel⟩ := decryptEnv_ok read env (hkv env (by simp)) (hok env (by simp))
      obtain ⟨out, hout, hlen, hall⟩ :=
        ih.1 (fun e he => hkv e (by simp [he])) (fun e he => hok e (by simp [he]))
      refine ⟨o :: out, ?_, by simp [hlen], List.Forall₂.cons hrel hall⟩
      simp [DecryptAllEnv, ho, hout]
    · rintro ⟨e, he, k, v, err, hs, hv, hr⟩
      unfold DecryptAllEnv
      cases hd : decryptEnv read env with
      | error e1 => exact ⟨_, rfl⟩
      | ok o =>
        simp only
        rcases List.mem_cons.mp he with rfl | he'
        · obtain ⟨e2, he2⟩ := decryptEnv_error read e k v err hs hv hr
          rw [he2] at hd; cases hd
        · obtain ⟨e2, he2⟩ := ih.2 ⟨e, he', k, v, err, hs, hv, hr⟩
          rw [he2]
          exact ⟨_, rfl⟩

theorem DecryptAllEnv_spec_witness :
    (isVaultPath "value" = false ∧ isVaultPath "1234" = false ∧
      isVaultPath "http://url" = false ∧ isVaultPath "vault://test" = true ∧
      isVaultPath "vault://secret/key1" = true) ∧
    DecryptAllEnv mockReadSecretValue
        ["Key1=Value1", "Key2=Value2", "Key3=vault://secure/validKey"] =
      .ok ["Key1=Value1", "Key2=Value2", "Key3=secret_value"] ∧
    (∃ out, DecryptAllEnv mockReadSecretValue
        ["Key1=Value1", "Key2=Value2", "Key3=vault://secure/validKey"] = .ok out ∧
      out.length = 3 ∧
      List.Forall₂
        (fun env o => ∃ k v v', splitEnv env = some (k, v) ∧ splitEnv o = some (k, v') ∧
          (if isVaultPath v = true then mockReadSecretValue v = .ok v' else o = env))
        ["Key1=Value1", "Key2=Value2", "Key3=vault://secure/validKey"] out) ∧
    (∃ err, DecryptAllEnv mockReadSecretValue ["Key1=Value1", "Key3=vault://secure/other"] =
      .error err) := by
  refine ⟨by decide, rfl, ?_, ?_⟩
  · refine (DecryptAllEnv_spec mockReadSecretValue
      ["Key1=Value1", "Key2=Value2", "Key3=vault://secure/validKey"]).1 (by decide) ?_
    intro e he k v hs hv
    have h1 : splitEnv "Key1=Value1" = some ("Key1", "Value1") := by decide
    have h2 : splitEnv "Key2=Value2" = some ("Key2", "Value2") := by decide
    have h3 : splitEnv "Key3=vault://secure/validKey" =
        some ("Key3", "vault://secure/validKey") := by decide
    simp only [List.mem_cons, List.mem_singleton, List.mem_nil_iff, or_false] at he
    rcases he with rfl | rfl | rfl
    · rw [h1] at hs; cases hs; exact absurd hv (by decide)
    · rw [h2] at hs; cases hs; exact absurd hv (by decide)
    · rw [h3] at hs; cases hs; exact ⟨"secret_value", rfl⟩
  · refine (DecryptAllEnv_spec mockReadSecretValue
      ["Key1=Value1", "Key3=vault://secure/other"]).2
      ⟨"Key3=vault://secure/other", by simp, "Key3", "vault://secure/other", "Unexpected",
        by decide, by decide, rfl⟩

end Vault

namespace Container

/-- C8: for a task with N volume entries, ConfigForTask produces N bind
strings in input order; entry i is the host path, a colon and the container
path of volume i, followed by :ro when the mode of volume i is read-only and
by nothing otherwise (also when no mode is set). -/
theorem ConfigForTask_binds (task : TaskInfo) :
    (ConfigForTask task).HostConfig.Binds.length = task.Volumes.length ∧
    ∀ (i : Nat) (v : Volume), task.Volumes[i]? = some v →
      ∃ b, (ConfigForTask task).HostConfig.Binds[i]? = some b ∧
        (v.Mode = some .RO → b = v.HostPath ++ ":" ++ v.ContainerPath ++ ":ro") ∧
        (v.Mode ≠ some .RO → b = v.HostPath ++ ":" ++ v.ContainerPath) := by
  refine ⟨by simp [ConfigForTask, getBinds], ?_⟩
  intro i v hv
  refine ⟨bindString v, by simp [ConfigForTask, getBinds, hv], ?_, ?_⟩
  · intro h; simp [bindString, h]
  · intro h; simp [bindString, h]

theorem ConfigForTask_binds_witness :
    (ConfigForTask testTask).HostConfig.Binds =
      ["/tmp/elsewhere:/tmp/somewhere:ro", "/tmp/bar:/tmp/foo"] ∧
    (ConfigForTask testTask).HostConfig.Binds.length = 2 ∧
    (∃ b, (ConfigForTask testTask).HostConfig.Binds[1]? = some b ∧
      (none ≠ some VolumeMode.RO → b = "/tmp/bar" ++ ":" ++ "/tmp/foo")) :=
  ⟨by decide, (ConfigForTask_binds testTask).1,
    ((ConfigForTask_binds testTask).2 1 ⟨none, "/tmp/foo", "/tmp/bar"⟩ rfl).imp
      (fun _ h => ⟨h.1, h.2.2⟩)⟩

end Container

namespace Container

theorem digitChar_value (d : Nat) (h : d < 10) : (Nat.digitChar d).toNat - 48 = d := by
  interval_cases d <;> rfl

theorem digitsValue_append (xs : List Char) (c : Char) :
    digitsValue (xs ++ [c]) = 10 * digitsValue xs + (c.toNat - 48) := by
  simp [digitsValue, List.foldl_append]

theorem toDigitsCore_append (fuel : Nat) : ∀ (n : Nat) (ds : List Char),
    Nat.toDigitsCore 10 fuel n ds = Nat.toDigitsCore 10 fuel n [] ++ ds := by
  induction fuel with
  | zero => intro n ds; simp [Nat.toDigitsCore]
  | succ fuel ih =>
    intro n ds
    simp only [Nat.toDigitsCore]
    split_ifs with h
    · simp
    · rw [ih (n / 10) (Nat.digitChar (n % 10) :: ds), ih (n / 10) [Nat.digitChar (n % 10)]]
      simp

theorem digitsValue_toDigitsCore (fuel : Nat) : ∀ n : Nat, n < fuel →
    digitsValue (Nat.toDigitsCore 10 fuel n []) = n := by
  induction fuel with
  | zero => intro n h; omega
  | succ fuel ih =>
    intro n hn
    simp only [Nat.toDigitsCore]
    have hd := digitChar_value (n % 10) (Nat.mod_lt n (by decide))
    split_ifs with h
    · simp only [digitsValue, List.foldl_cons, List.foldl_nil, hd]
      omega
    · rw [toDigitsCore_append, digitsValue_append, ih (n / 10) (by omega), hd]
      omega

/-- The decimal rendering of a natural number determines the number. -/
theorem toString_nat_injective (a b : Nat) (h : toString a = toString b) : a = b := by
  have h1 : (Nat.toDigits 10 a) = (Nat.toDigits 10 b) := by
    have := congrArg String.data h
    simpa [toString, Nat.repr, List.asString] using this
  have ha := digitsValue_toDigitsCore (a + 1) a (by omega)
  have hb := digitsValue_toDigitsCore (b + 1) b (by omega)
  unfold Nat.toDigits at h1
  rw [h1] at ha
  omega

/-- Different container ports have different map keys. -/
theorem portKey_injective (a b : Nat) (h : portKey a = portKey b) : a = b := by
  apply toString_nat_injective
  have := congrArg String.data h
  simp only [portKey, String.data_append] at this
  exact String.ext (List.append_cancel_right this)

theorem lookup_cons_eq {V : Type} (rest : GoMap V) (k key : String) (v : V) :
    List.lookup key ((k, v) :: rest) = if key = k then some v else rest.lookup key := by
  by_cases h : key = k
  · have hb : (key == k) = true := by simp [h]
    simp [List.lookup, hb, h]
  · have hb : (key == k) = false := by simp [h]
    simp [List.lookup, hb, h]

theorem lookup_set {V : Type} (m : GoMap V) (k key : String) (v : V) :
    (GoMap.set m k v).lookup key = if key = k then some v else m.lookup key := by
  induction m with
  | nil =>
    unfold GoMap.set
    rw [lookup_cons_eq]
  | cons kv rest ih =>
    obtain ⟨k1, v1⟩ := kv
    unfold GoMap.set
    by_cases h1 : k1 = k
    · subst h1
      rw [if_pos rfl, lookup_cons_eq, lookup_cons_eq]
      split_ifs <;> rfl
    · rw [if_neg h1, lookup_cons_eq, lookup_cons_eq, ih]
      by_cases h2 : key = k1
      · have : ¬ key = k := fun e => h1 (h2.symm.trans e)
        rw [if_pos h2, if_neg this, if_pos h2]
      · rw [if_neg h2, if_neg h2]

end Container

namespace Container

theorem exposed_foldl (l : List PortMapping) : ∀ (m : GoMap Unit) (key : String),
    ((l.foldl (fun m pm => m.set (portKey pm.ContainerPort) ()) m).lookup key).isSome ↔
      (m.lookup key).isSome ∨ ∃ pm ∈ l, portKey pm.ContainerPort = key := by
  induction l with
  | nil => intro m key; simp
  | cons pm l ih =>
    intro m key
    rw [List.foldl_cons, ih, lookup_set]
    by_cases h : key = portKey pm.ContainerPort
    · simp [h]
    · have h' : ¬ portKey pm.ContainerPort = key := fun e => h e.symm
      simp [h, h']

theorem bindings_foldl (l : List PortMapping) :
    ∀ (m : GoMap (List PortBinding)) (key : String) (b : List PortBinding),
    (l.foldl
        (fun m pm =>
          match pm.HostPort with
          | none => m
          | some hp => m.set (portKey pm.ContainerPort) [{ HostPort := toString hp }])
        m).lookup key = some b →
      m.lookup key = some b ∨
      ∃ pm ∈ l, ∃ hp, portKey pm.ContainerPort = key ∧ pm.HostPort = some hp ∧
        b = [{ HostPort := toString hp }] := by
  induction l with
  | nil => intro m key b h; exact Or.inl h
  | cons pm l ih =>
    intro m key b h
    rw [List.foldl_cons] at h
    rcases ih _ key b h with h1 | ⟨pm1, hmem, hp, hk, hh, hb⟩
    · cases hhp : pm.HostPort with
      | none => rw [hhp] at h1; exact Or.inl h1
      | some hp =>
        rw [hhp] at h1
        simp only at h1
        rw [lookup_set] at h1
        by_cases hk : key = portKey pm.ContainerPort
        · rw [if_pos hk] at h1
          refine Or.inr ⟨pm, by simp, hp, hk.symm, hhp, ?_⟩
          exact (Option.some.inj h1).symm
        · rw [if_neg hk] at h1
          exact Or.inl h1
    · exact Or.inr ⟨pm1, by simp [hmem], hp, hk, hh, hb⟩

theorem bindings_foldl_isSome (l : List PortMapping) :
    ∀ (m : GoMap (List PortBinding)) (key : String),
    ((l.foldl
        (fun m pm =>
          match pm.HostPort with
          | none => m
          | some hp => m.set (portKey pm.ContainerPort) [{ HostPort := toString hp }])
        m).lookup key).isSome ↔
      (m.lookup key).isSome ∨
      ∃ pm ∈ l, portKey pm.ContainerPort = key ∧ pm.HostPort.isSome := by
  induction l with
  | nil => intro m key; simp
  | cons pm l ih =>
    intro m key
    rw [List.foldl_cons, ih]
    cases hhp : pm.HostPort with
    | none => simp [hhp]
    | some hp =>
      simp only
      rw [lookup_set]
      by_cases hk : key = portKey pm.ContainerPort
      · simp [hk, hhp]
      · have hk' : ¬ portKey pm.ContainerPort = key := fun e => hk e.symm
        simp [hk, hk', hhp]

/-- C9: for every task and every container port p, ExposedPorts has the key
"p/tcp" exactly when some port-mapping entry has container port p (so every
entry contributes its key), PortBindings has the key "p/tcp" exactly when some
mapping entry for p supplies a host port, and the binding stored under that
key is a single one whose HostPort is the decimal rendering of a host port
that a mapping entry for p supplies. -/
theorem ConfigForTask_ports (task : TaskInfo) (p : Nat) :
    (((ConfigForTask task).Config.ExposedPorts.lookup (portKey p)).isSome ↔
      ∃ pm ∈ task.PortMappings, pm.ContainerPort = p) ∧
    (((ConfigForTask task).HostConfig.PortBindings.lookup (portKey p)).isSome ↔
      ∃ pm ∈ task.PortMappings, pm.ContainerPort = p ∧ pm.HostPort.isSome) ∧
    (∀ b, (ConfigForTask task).HostConfig.PortBindings.lookup (portKey p) = some b →
      ∃ pm ∈ task.PortMappings, ∃ hp, pm.ContainerPort = p ∧ pm.HostPort = some hp ∧
        b = [{ HostPort := toString hp }]) := by
  refine ⟨?_, ?_, ?_⟩
  · show ((getExposedPorts task).lookup (portKey p)).isSome ↔ _
    unfold getExposedPorts
    rw [exposed_foldl]
    constructor
    · rintro (h | ⟨pm, hm, hk⟩)
      · simp at h
      · exact ⟨pm, hm, portKey_injective _ _ hk⟩
    · rintro ⟨pm, hm, hk⟩
      exact Or.inr ⟨pm, hm, by rw [hk]⟩
  · show ((getPortBindings task).lookup (portKey p)).isSome ↔ _
    unfold getPortBindings
    rw [bindings_foldl_isSome]
    constructor
    · rintro (h | ⟨pm, hm, hk, hh⟩)
      · simp at h
      · exact ⟨pm, hm, portKey_injective _ _ hk, hh⟩
    · rintro ⟨pm, hm, hk, hh⟩
      exact Or.inr ⟨pm, hm, by rw [hk], hh⟩
  · intro b hb
    change (getPortBindings task).lookup (portKey p) = some b at hb
    unfold getPortBindings at hb
    rcases bindings_foldl _ _ _ _ hb with h | ⟨pm, hm, hp, hk, hh, hbb⟩
    · simp at h
    · exact ⟨pm, hm, hp, portKey_injective _ _ hk, hh, hbb⟩

theorem ConfigForTask_ports_witness :
    (ConfigForTask testTask).Config.ExposedPorts.length = 2 ∧
    ((ConfigForTask testTask).Config.ExposedPorts.lookup "8080/tcp").isSome ∧
    (ConfigForTask testTask).HostConfig.PortBindings =
      [("443/tcp", [{ HostPort := "10270" }])] ∧
    ((ConfigForTask testTask).HostConfig.PortBindings.lookup (portKey 8080)).isSome = false ∧
    (∃ pm ∈ testTask.PortMappings, pm.ContainerPort = 443 ∧ pm.HostPort.isSome) :=
  ⟨by decide, by decide, by decide, by decide,
    (ConfigForTask_ports testTask 443).2.1.mp (by decide)⟩

end Container

namespace SidecarExecutor

/-- One round of the retry loop, with the result of `drainer` named. -/
theorem retryLoop_succ (exec : sidecarExecutor) (u : URL) (fuel : Nat) (i : Int)
    (st : LoopState) :
    retryLoop exec u (fuel + 1) i st =
      if i ≤ exec.config.SidecarRetryCount then
        if (drainer exec u st.calls).2 = none ∧ (drainer exec u st.calls).1 = 202 then
          some { now := st.now + exec.fetcher.PostDuration st.calls
                 calls := st.calls + 1
                 events := st.events ++ [Event.post st.now u.String "" none] }
        else if watcherClosed exec (st.now + exec.fetcher.PostDuration st.calls) = true then
          some { now := st.now + exec.fetcher.PostDuration st.calls
                 calls := st.calls + 1
                 events := st.events ++ [Event.post st.now u.String "" none] ++
                   [Event.warnFailed (wrapInt (i + 1))] }
        else
          retryLoop exec u fuel (wrapInt (i + 1))
            { now := st.now + exec.fetcher.PostDuration st.calls +
                exec.config.SidecarRetryDelay.toNat
              calls := st.calls + 1
              events := st.events ++ [Event.post st.now u.String "" none] ++
                [Event.warnFailed (wrapInt (i + 1))] ++
                [Event.sleep (st.now + exec.fetcher.PostDuration st.calls)
                  exec.config.SidecarRetryDelay] }
      else some st := by
  rw [retryLoop]

/-- Every event that the retry loop adds is a POST to the drain URL with an
empty content type and no body, a failure warning or a sleep. -/
theorem retryLoop_events (exec : sidecarExecutor) (u : URL) (fuel : Nat) :
    ∀ (i : Int) (st st' : LoopState), retryLoop exec u fuel i st = some st' →
      ∃ new, st'.events = st.events ++ new ∧
        ∀ e ∈ new, (∃ t, e = Event.post t u.String "" none) ∨ (∃ n, e = Event.warnFailed n) ∨
          (∃ t d, e = Event.sleep t d) := by
  induction fuel with
  | zero => intro i st st' h; simp [retryLoop] at h
  | succ fuel ih =>
    intro i st st' h
    rw [retryLoop_succ] at h
    split_ifs at h with h1 h2 h3
    · cases h
      exact ⟨[_], rfl, by simp⟩
    · cases h
      refine ⟨[Event.post st.now u.String "" none, Event.warnFailed (wrapInt (i + 1))],
        by simp, ?_⟩
      intro e he
      simp only [List.mem_cons, List.mem_singleton, List.mem_nil_iff, or_false] at he
      rcases he with rfl | rfl
      · exact Or.inl ⟨_, rfl⟩
      · exact Or.inr (Or.inl ⟨_, rfl⟩)
    · obtain ⟨new, hnew, hall⟩ := ih _ _ _ h
      refine ⟨Event.post st.now u.String "" none :: Event.warnFailed (wrapInt (i + 1)) ::
        Event.sleep (st.now + exec.fetcher.PostDuration st.calls)
          exec.config.SidecarRetryDelay :: new, by simp [hnew], ?_⟩
      intro e he
      simp only [List.mem_cons] at he
      rcases he with rfl | rfl | rfl | he
      · exact Or.inl ⟨_, rfl⟩
      · exact Or.inr (Or.inl ⟨_, rfl⟩)
      · exact Or.inr (Or.inr ⟨_, _, rfl⟩)
      · exact hall e he
    · cases h
      exact ⟨[], by simp, by simp⟩

end SidecarExecutor

namespace SidecarExecutor

theorem escape_append (a b : Bytes) (mode : encoding) :
    escape (a ++ b) mode = escape a mode ++ escape b mode := by
  apply String.ext
  simp [escape, String.data_append]

theorem escape_nil (mode : encoding) : escape [] mode = "" := rfl

/-- Bytes that need no escaping are copied. -/
theorem escape_plain (bs : Bytes) (mode : encoding)
    (h : ∀ b ∈ bs, shouldEscape b mode = false) : escape bs mode = asciiString bs := by
  apply String.ext
  simp only [escape, asciiString]
  induction bs with
  | nil => rfl
  | cons b bs ih =>
    have hb : shouldEscape b mode = false := h b (by simp)
    have := ih (fun x hx => h x (by simp [hx]))
    simp [escapeByte, hb, this]

/-- A byte that `shouldEscape` lets through is ASCII. -/
theorem shouldEscape_false_lt (n : Nat) (mode : encoding) (h : shouldEscape n mode = false) :
    n < 128 := by
  by_contra hn
  have hn' : 128 ≤ n := by omega
  have h1 : isAlnum n = false := by
    simp only [isAlnum, Bool.or_eq_false_iff, Bool.and_eq_false_iff, decide_eq_false_iff_not]
    omega
  have h2 : ∀ l : List Nat, (∀ x ∈ l, x < 128) → n ∉ l := fun l hl hm => by
    have := hl n hm; omega
  unfold shouldEscape at h
  rw [h1] at h
  simp only [Bool.false_eq_true, if_false] at h
  rw [if_neg (fun hc => h2 _ (by decide) hc.2), if_neg (h2 _ (by decide)),
    if_neg (h2 _ (by decide))] at h
  cases h

theorem bytesOf_ascii (l : List Char) (h : ∀ c ∈ l, c.toNat < 128) :
    bytesOf (String.mk l) = l.map Char.toNat := by
  unfold bytesOf
  induction l with
  | nil => rfl
  | cons c cs ih =>
    have hc : c.toNat ≤ 0x7f := by have := h c (by simp); omega
    have := ih (fun x hx => h x (by simp [hx]))
    simp only [List.map_cons, List.flatten_cons] at this ⊢
    rw [this]
    simp [utf8EncodeChar, hc]

theorem asciiString_toNat (l : List Char) : asciiString (l.map Char.toNat) = String.mk l := by
  simp only [asciiString, List.map_map]
  congr 1
  induction l with
  | nil => rfl
  | cons c cs ih => simp [ih, Char.ofNat_toNat]

end SidecarExecutor

namespace SidecarExecutor

theorem bytesOf_services : bytesOf "/api/services/" =
    [47, 97, 112, 105, 47, 115, 101, 114, 118, 105, 99, 101, 115, 47] := by decide

theorem bytesOf_drain : bytesOf "/drain" = [47, 100, 114, 97, 105, 110] := by decide

/-- The escaped path of the drain URL. -/
theorem drainPath_escaped (S H : String) (id : Bytes) :
    URL.EscapedPath
        { Scheme := S, Host := H, Path := bytesOf "/api/services/" ++ id ++ bytesOf "/drain" } =
      "/api/services/" ++ escape id .encodePath ++ "/drain" := by
  unfold URL.EscapedPath
  have hne : bytesOf "/api/services/" ++ id ++ bytesOf "/drain" ≠ [0x2a] := by
    rw [bytesOf_services]; simp
  simp only [hne, if_false]
  rw [escape_append, escape_append]
  have h1 : escape (bytesOf "/api/services/") .encodePath = "/api/services/" := by decide
  have h2 : escape (bytesOf "/drain") .encodePath = "/drain" := by decide
  rw [h1, h2]

/-- The closed form of the drain URL: the scheme and a colon when there is a
scheme, two slashes when there is a scheme or a host, the escaped host, and the
drain path with the escaped ID. -/
theorem drainURL_String (S H : String) (id : Bytes) :
    URL.String
        { Scheme := S, Host := H, Path := bytesOf "/api/services/" ++ id ++ bytesOf "/drain" } =
      (if S ≠ "" then S ++ ":" else "") ++ (if S ≠ "" ∨ H ≠ "" then "//" else "") ++
        escape (bytesOf H) .encodeHost ++ "/api/services/" ++ escape id .encodePath ++
        "/drain" := by
  have hP : bytesOf "/api/services/" ++ id ++ bytesOf "/drain" ≠ [] := by
    rw [bytesOf_services]; simp
  have hpath := drainPath_escaped S H id
  have hdata : ("/api/services/" ++ escape id .encodePath ++ "/drain").data =
      '/' :: ("api/services/".data ++ (escape id .encodePath).data ++ "/drain".data) := by
    simp [String.data_append]
  unfold URL.String
  simp only [hpath, hdata, hP]
  simp only [List.head?_cons, ne_eq, not_true_eq_false, false_and, and_false, if_false,
    List.takeWhile_cons, decide_not, decide_True, Bool.not_true, Bool.false_eq_true,
    List.contains_nil, not_false_eq_true, or_true, if_true]
  have hb : escape (bytesOf "") .encodeHost = "" := rfl
  by_cases hS : S = ""
  · by_cases hH : H = ""
    · subst hS; subst hH
      simp only [not_true_eq_false, or_self, if_false, hb]
      apply String.ext
      simp [String.data_append]
    · subst hS
      simp only [not_true_eq_false, false_or, hH, not_false_eq_true, if_true, if_false]
      apply String.ext
      simp [String.data_append]
  · by_cases hH : H = ""
    · subst hH
      simp only [hS, hP, not_false_eq_true, true_or, or_true, if_true, not_true_eq_false,
        if_false, hb]
      apply String.ext
      simp [String.data_append]
    · simp only [hS, hH, not_false_eq_true, true_or, if_true]
      apply String.ext
      simp [String.data_append]

end SidecarExecutor

namespace SidecarExecutor

theorem wrapInt_eq (x : Int) (h1 : -2 ^ 63 ≤ x) (h2 : x < 2 ^ 63) : wrapInt x = x := by
  unfold wrapInt
  norm_num at h1 h2 ⊢
  omega

/-- The retry loop finishes when the retry count is below the largest `int`:
the counter then never wraps, and the remaining rounds plus one bound the loop
tests. -/
theorem retryLoop_terminates (exec : sidecarExecutor) (u : URL)
    (hN : exec.config.SidecarRetryCount < 2 ^ 63 - 1) (fuel : Nat) :
    ∀ (i : Int) (st : LoopState), -2 ^ 63 ≤ i →
      (exec.config.SidecarRetryCount + 1 - i).toNat + 1 ≤ fuel →
      ∃ st', retryLoop exec u fuel i st = some st' := by
  induction fuel with
  | zero => intro i st _ h; omega
  | succ fuel ih =>
    intro i st hi hf
    rw [retryLoop_succ]
    split_ifs with h1 h2 h3
    · exact ⟨_, rfl⟩
    · exact ⟨_, rfl⟩
    · have hw : wrapInt (i + 1) = i + 1 := by
        apply wrapInt_eq
        · omega
        · norm_num at hN ⊢; omega
      rw [hw]
      apply ih
      · omega
      · omega
    · exact ⟨_, rfl⟩

/-- The loop bound that suffices for a run of `notifyDrain`. -/
theorem notifyDrain_terminates (w : World) (exec : sidecarExecutor)
    (hN : exec.config.SidecarRetryCount < 2 ^ 63 - 1) (fuel : Nat)
    (hf : (exec.config.SidecarRetryCount + 1).toNat + 1 ≤ fuel) :
    ∃ r, notifyDrain w exec fuel = some r := by
  unfold notifyDrain
  by_cases h1 : (!shouldCheckSidecar exec.containerConfig ||
      exec.config.SidecarDrainingDuration == 0) = true
  · rw [if_pos h1]
    exact ⟨_, rfl⟩
  · rw [if_neg h1]
    cases w.urlParse exec.config.SidecarUrl with
    | error err => exact ⟨_, rfl⟩
    | ok u =>
      simp only
      by_cases h2 : exec.containerID = ""
      · rw [if_pos h2]
        exact ⟨_, rfl⟩
      · rw [if_neg h2]
        cases sliceTo (bytesOf exec.containerID) 12 with
        | none => exact ⟨_, rfl⟩
        | some id =>
          simp only
          obtain ⟨st', hst⟩ := retryLoop_terminates exec
            { Scheme := u.Scheme, Host := u.Host,
              Path := bytesOf "/api/services/" ++ id ++ bytesOf "/drain" }
            hN fuel 0 { now := 0, calls := 0, events := [Event.warnSetting id] }
            (by norm_num) (by simpa using hf)
          rw [hst]
          exact ⟨_, rfl⟩

/-- A run that reaches the retry loop, taken apart: the URL parsed, the ID has
twelve bytes or more, and the events are those of the loop followed by those
of the final wait. -/
theorem notifyDrain_loop (w : World) (exec : sidecarExecutor) (fuel : Nat) (u : URL) (r : Run)
    (hcheck : shouldCheckSidecar exec.containerConfig = true)
    (hdur : exec.config.SidecarDrainingDuration ≠ 0)
    (hparse : w.urlParse exec.config.SidecarUrl = .ok u)
    (hlen : 12 ≤ len exec.containerID)
    (hrun : notifyDrain w exec fuel = some r) :
    ∃ st, retryLoop exec
        { Scheme := u.Scheme, Host := u.Host,
          Path := bytesOf "/api/services/" ++ (bytesOf exec.containerID).take 12 ++
            bytesOf "/drain" }
        fuel 0
        { now := 0, calls := 0,
          events := [Event.warnSetting ((bytesOf exec.containerID).take 12)] } = some st ∧
      r = finalWait exec st := by
  unfold notifyDrain at hrun
  have h1 : ¬ ((!shouldCheckSidecar exec.containerConfig ||
      exec.config.SidecarDrainingDuration == 0) = true) := by
    simp [hcheck, hdur]
  have h2 : ¬ exec.containerID = "" := by
    intro h
    rw [h] at hlen
    exact absurd hlen (by decide)
  have h3 : sliceTo (bytesOf exec.containerID) 12 = some ((bytesOf exec.containerID).take 12) := by
    unfold sliceTo
    exact if_pos hlen
  rw [if_neg h1, hparse] at hrun
  simp only [if_neg h2, h3] at hrun
  cases hl : retryLoop exec
      { Scheme := u.Scheme, Host := u.Host,
        Path := bytesOf "/api/services/" ++ (bytesOf exec.containerID).take 12 ++
          bytesOf "/drain" }
      fuel 0
      { now := 0, calls := 0,
        events := [Event.warnSetting ((bytesOf exec.containerID).take 12)] } with
  | none => rw [hl] at hrun; cases hrun
  | some st =>
    rw [hl] at hrun
    exact ⟨st, rfl, (Option.some.inj hrun).symm⟩

end SidecarExecutor

namespace SidecarExecutor

theorem finalWait_posts (exec : sidecarExecutor) (st : LoopState) :
    (finalWait exec st).posts = st.events.filter Event.isPost := by
  unfold finalWait Run.posts
  simp only
  split_ifs
  · rfl
  · simp [List.filter_append, Event.isPost]

/-- The POST calls of a run that reaches the retry loop all go to the drain
URL, with an empty content type and no body. -/
theorem notifyDrain_posts_url (w : World) (exec : sidecarExecutor) (fuel : Nat) (u : URL)
    (r : Run)
    (hparse : w.urlParse exec.config.SidecarUrl = .ok u)
    (hlen : 12 ≤ len exec.containerID)
    (hrun : notifyDrain w exec fuel = some r) :
    ∀ e ∈ r.posts, ∃ t, e = Event.post t
      (URL.String
        { Scheme := u.Scheme, Host := u.Host,
          Path := bytesOf "/api/services/" ++ (bytesOf exec.containerID).take 12 ++
            bytesOf "/drain" }) "" none := by
  by_cases hg : shouldCheckSidecar exec.containerConfig = true ∧
      exec.config.SidecarDrainingDuration ≠ 0
  · obtain ⟨st, hst, hr⟩ := notifyDrain_loop w exec fuel u r hg.1 hg.2 hparse hlen hrun
    obtain ⟨new, hnew, hall⟩ := retryLoop_events exec _ fuel 0 _ st hst
    intro e he
    rw [hr, finalWait_posts, hnew] at he
    simp only [List.filter_append, List.mem_append, List.mem_filter, List.mem_singleton] at he
    rcases he with ⟨rfl, hp⟩ | ⟨hm, hp⟩
    · simp [Event.isPost] at hp
    · rcases hall e hm with h | ⟨n, rfl⟩ | ⟨t, d, rfl⟩
      · exact h
      · simp [Event.isPost] at hp
      · simp [Event.isPost] at hp
  · have h1 : (!shouldCheckSidecar exec.containerConfig ||
        exec.config.SidecarDrainingDuration == 0) = true := by
      by_cases hc : shouldCheckSidecar exec.containerConfig = true
      · have : exec.config.SidecarDrainingDuration = 0 := by
          by_contra h0; exact hg ⟨hc, h0⟩
        simp [this]
      · simp [hc]
    unfold notifyDrain at hrun
    rw [if_pos h1] at hrun
    cases hrun
    intro e he
    simp [Run.posts] at he

/-- A string of ASCII letters and digits is its own byte prefix and needs no
escaping in a path. -/
theorem escape_take_alnum (id : String) (hlen : 12 ≤ id.length)
    (hid : ∀ c ∈ id.data.take 12, isAlnum c.toNat = true) :
    12 ≤ len id ∧
    escape ((bytesOf id).take 12) .encodePath = String.mk (id.data.take 12) := by
  have hsplit : id = String.mk (id.data.take 12 ++ id.data.drop 12) := by
    rw [List.take_append_drop]
  have hb : ∀ c ∈ id.data.take 12, c.toNat < 128 := by
    intro c hc
    have := hid c hc
    simp only [isAlnum, Bool.or_eq_true, Bool.and_eq_true, decide_eq_true_eq] at this
    omega
  have hbytes : bytesOf id =
      (id.data.take 12).map Char.toNat ++ bytesOf (String.mk (id.data.drop 12)) := by
    have h1 := bytesOf_ascii (id.data.take 12) hb
    unfold bytesOf at h1 ⊢
    conv_lhs => rw [hsplit]
    simp only [List.map_append, List.flatten_append]
    rw [← h1]
  have hl : ((id.data.take 12).map Char.toNat).length = 12 := by
    rw [List.length_map, List.length_take]
    have : id.data.length = id.length := rfl
    omega
  constructor
  · unfold len
    rw [hbytes, List.length_append, hl]
    omega
  · rw [hbytes, List.take_left' hl]
    rw [escape_plain, asciiString_toNat]
    intro b hbm
    obtain ⟨c, hc, rfl⟩ := List.mem_map.mp hbm
    have := hid c hc
    simp [shouldEscape, this]

end SidecarExecutor

namespace SidecarExecutor

/-- A host whose characters all pass `shouldEscape` is written as it is. -/
theorem escape_host_plain (H : String)
    (h : ∀ c ∈ H.data, shouldEscape c.toNat .encodeHost = false) :
    escape (bytesOf H) .encodeHost = H := by
  have hb : ∀ c ∈ H.data, c.toNat < 128 := fun c hc => shouldEscape_false_lt _ _ (h c hc)
  have h1 : bytesOf H = H.data.map Char.toNat := bytesOf_ascii H.data hb
  rw [h1, escape_plain, asciiString_toNat]
  intro b hbm
  obtain ⟨c, hc, rfl⟩ := List.mem_map.mp hbm
  exact h c hc

/-- C4 (amended): for a container ID of at least 12 bytes and a SidecarUrl that
parses to scheme S and host H, every POST of every run of notifyDrain has an
empty content type, no body, and as target the scheme and a colon (when S is
not empty), two slashes (when S or H is not empty), H percent-escaped as a
host, and /api/services/ID/drain where ID is the first 12 bytes of the
container ID percent-escaped as a path. When S is not empty, no character of H
needs escaping and the first 12 characters of the container ID are ASCII
letters or digits, the target is exactly S://H/api/services/ID/drain with ID
the first 12 characters. Path and query of the SidecarUrl do not enter. With a
retry count below the largest int, a run exists for every sufficient loop
bound. -/
theorem notifyDrain_post_target (w : World) (exec : sidecarExecutor) (u : URL)
    (hparse : w.urlParse exec.config.SidecarUrl = .ok u)
    (hlen : 12 ≤ len exec.containerID) :
    (∀ fuel r, notifyDrain w exec fuel = some r →
      ∀ e ∈ r.posts, ∃ t, e = Event.post t
        ((if u.Scheme ≠ "" then u.Scheme ++ ":" else "") ++
          (if u.Scheme ≠ "" ∨ u.Host ≠ "" then "//" else "") ++
          escape (bytesOf u.Host) .encodeHost ++ "/api/services/" ++
          escape ((bytesOf exec.containerID).take 12) .encodePath ++ "/drain") "" none) ∧
    (u.Scheme ≠ "" → (∀ c ∈ u.Host.data, shouldEscape c.toNat .encodeHost = false) →
      12 ≤ exec.containerID.length →
      (∀ c ∈ exec.containerID.data.take 12, isAlnum c.toNat = true) →
      ∀ fuel r, notifyDrain w exec fuel = some r →
        ∀ e ∈ r.posts, ∃ t, e = Event.post t
          (u.Scheme ++ "://" ++ u.Host ++ "/api/services/" ++
            String.mk (exec.containerID.data.take 12) ++ "/drain") "" none) ∧
    (exec.config.SidecarRetryCount < 2 ^ 63 - 1 →
      ∀ fuel, (exec.config.SidecarRetryCount + 1).toNat + 1 ≤ fuel →
        ∃ r, notifyDrain w exec fuel = some r) := by
  have hgen : ∀ fuel r, notifyDrain w exec fuel = some r →
      ∀ e ∈ r.posts, ∃ t, e = Event.post t
        ((if u.Scheme ≠ "" then u.Scheme ++ ":" else "") ++
          (if u.Scheme ≠ "" ∨ u.Host ≠ "" then "//" else "") ++
          escape (bytesOf u.Host) .encodeHost ++ "/api/services/" ++
          escape ((bytesOf exec.containerID).take 12) .encodePath ++ "/drain") "" none := by
    intro fuel r hrun e he
    have := notifyDrain_posts_url w exec fuel u r hparse hlen hrun e he
    rw [drainURL_String] at this
    exact this
  refine ⟨hgen, ?_, fun hN fuel hf => notifyDrain_terminates w exec hN fuel hf⟩
  intro hS hH hl hid fuel r hrun e he
  obtain ⟨t, ht⟩ := hgen fuel r hrun e he
  refine ⟨t, ?_⟩
  rw [ht, escape_host_plain u.Host hH, (escape_take_alnum exec.containerID hl hid).2]
  congr 1
  simp only [hS, ne_eq, not_false_eq_true, true_or, if_true]
  apply String.ext
  simp [String.data_append]

theorem notifyDrain_post_target_witness :
    ∃ t, Event.post 0 "http://localhost:7777/api/services/0123456789ab/drain" "" none =
      Event.post t
        ("http" ++ "://" ++ "localhost:7777" ++ "/api/services/" ++
          String.mk ("0123456789abcdef".data.take 12) ++ "/drain") "" none :=
  (notifyDrain_post_target sampleWorld (sampleExec 0 10 100 "0123456789abcdef" none)
    { Scheme := "http", Host := "localhost:7777", Path := bytesOf "/state.json" }
    rfl (by decide)).2.1 (by decide) (by decide) (by decide) (by decide) 2
    (Run.mk
      [Event.warnSetting (bytesOf "0123456789ab"),
       Event.post 0 "http://localhost:7777/api/services/0123456789ab/drain" "" none,
       Event.warnFailed 1, Event.sleep 1 10, Event.wait 11 111]
      (Outcome.returned 111))
    (by decide)
    (Event.post 0 "http://localhost:7777/api/services/0123456789ab/drain" "" none)
    (by decide)

/-- C4 as stated fails. With the SidecarUrl http://localhost:7777/state.json
and the 15-character ID "abc def ghi jkl" the POST goes to a URL in which the
blanks are percent-escaped; with the 12-character ID of twelve é the POST
carries the first 12 bytes, six characters, percent-escaped; with the
SidecarUrl "localhost", which parses to an empty scheme and an empty host, the
target is the bare path; with a host that has a non-ASCII character the host
is percent-escaped. -/
theorem notifyDrain_post_target_counterexample :
    ((notifyDrain sampleWorld (sampleExec 0 10 100 "abc def ghi jkl" none) 2).map Run.posts =
        some [Event.post 0 "http://localhost:7777/api/services/abc%20def%20ghi%20/drain" "" none] ∧
      "http://localhost:7777/api/services/abc%20def%20ghi%20/drain" ≠
        "http" ++ "://" ++ "localhost:7777" ++ "/api/services/" ++
          String.mk ("abc def ghi jkl".data.take 12) ++ "/drain") ∧
    ((notifyDrain sampleWorld (sampleExec 0 10 100 "éééééééééééé" none) 2).map Run.posts =
        some [Event.post 0
          "http://localhost:7777/api/services/%C3%A9%C3%A9%C3%A9%C3%A9%C3%A9%C3%A9/drain"
          "" none] ∧
      "éééééééééééé".length = 12) ∧
    (sampleWorld.urlParse "localhost" = .ok { Scheme := "", Host := "", Path := bytesOf "localhost" } ∧
      (notifyDrain sampleWorld
        { sampleExec 0 10 100 "0123456789abcdef" none with
          config := { sampleConfig 0 10 100 with SidecarUrl := "localhost" } } 2).map Run.posts =
        some [Event.post 0 "/api/services/0123456789ab/drain" "" none]) ∧
    (sampleWorld.urlParse "http://héllo.local/state.json" =
        .ok { Scheme := "http", Host := "héllo.local", Path := bytesOf "/state.json" } ∧
      (notifyDrain sampleWorld
        { sampleExec 0 10 100 "0123456789abcdef" none with
          config := { sampleConfig 0 10 100 with
            SidecarUrl := "http://héllo.local/state.json" } } 2).map Run.posts =
        some [Event.post 0 "http://h%C3%A9llo.local/api/services/0123456789ab/drain" "" none]) :=
  ⟨⟨by decide, by decide⟩, ⟨by decide, by decide⟩, ⟨rfl, by decide⟩, ⟨rfl, by decide⟩⟩

end SidecarExecutor

namespace SidecarExecutor

/-- A POST that errors or answers with another status than 202 does not end
the retry loop. -/
theorem drainer_fail (exec : sidecarExecutor) (u : URL) (call : Nat)
    (hfail : ∀ call url ct, exec.fetcher.Post call url ct ≠ .resp 202) :
    ¬ ((drainer exec u call).2 = none ∧ (drainer exec u call).1 = 202) := by
  unfold drainer
  cases hp : exec.fetcher.Post call u.String "" with
  | err e => simp
  | resp code =>
    simp only [true_and]
    intro hc
    exact hfail call u.String "" (by rw [hp, hc])

/-- With a registry that never accepts and a watcher that never finishes, the
retry loop entered with counter i makes one POST for each counter value up to
the retry count. -/
theorem retryLoop_all_fail (exec : sidecarExecutor) (u : URL)
    (hmax : exec.config.SidecarRetryCount < 2 ^ 63 - 1)
    (hwatch : exec.watcherDone = none)
    (hfail : ∀ call url ct, exec.fetcher.Post call url ct ≠ .resp 202) (fuel : Nat) :
    ∀ (i : Int) (st : LoopState), 0 ≤ i →
      (exec.config.SidecarRetryCount + 1 - i).toNat + 1 ≤ fuel →
      ∃ st', retryLoop exec u fuel i st = some st' ∧
        (st'.events.filter Event.isPost).length =
          (st.events.filter Event.isPost).length +
            (exec.config.SidecarRetryCount + 1 - i).toNat := by
  induction fuel with
  | zero => intro i st _ h; omega
  | succ fuel ih =>
    intro i st hi hf
    rw [retryLoop_succ]
    have hd := drainer_fail exec u st.calls hfail
    have hw : ∀ t, watcherClosed exec t = false := by
      intro t; simp [watcherClosed, hwatch]
    by_cases h1 : i ≤ exec.config.SidecarRetryCount
    · rw [if_pos h1, if_neg hd, hw]
      simp only [Bool.false_eq_true, if_false]
      have hwr : wrapInt (i + 1) = i + 1 := by
        apply wrapInt_eq
        · omega
        · norm_num at hmax ⊢; omega
      rw [hwr]
      obtain ⟨st', hst, hcount⟩ := ih (i + 1)
        { now := st.now + exec.fetcher.PostDuration st.calls +
            exec.config.SidecarRetryDelay.toNat
          calls := st.calls + 1
          events := st.events ++ [Event.post st.now u.String "" none] ++
            [Event.warnFailed (i + 1)] ++
            [Event.sleep (st.now + exec.fetcher.PostDuration st.calls)
              exec.config.SidecarRetryDelay] }
        (by omega) (by omega)
      refine ⟨st', hst, ?_⟩
      rw [hcount]
      simp only [List.filter_append, List.length_append, List.filter_cons, List.filter_nil,
        Event.isPost, if_true, Bool.false_eq_true, if_false, List.length_cons, List.length_nil]
      omega
    · rw [if_neg h1]
      refine ⟨st, rfl, ?_⟩
      have : (exec.config.SidecarRetryCount + 1 - i).toNat = 0 := by omega
      rw [this]; rfl

/-- C1 (amended): with retry count N (at least 0 and below the largest int),
draining enabled, a positive draining duration, a SidecarUrl that parses, a
container ID of at least 12 bytes, a watcher that never finishes and a registry
whose every POST errors or returns another status than 202, notifyDrain makes
exactly N + 1 POST attempts, the first one and N retries, and then enters the
final wait, which lasts the draining duration. -/
theorem notifyDrain_attempts (w : World) (exec : sidecarExecutor) (u : URL) (N fuel : Nat)
    (hN : exec.config.SidecarRetryCount = N)
    (hmax : (N : Int) < 2 ^ 63 - 1)
    (hcheck : shouldCheckSidecar exec.containerConfig = true)
    (hdur : 0 < exec.config.SidecarDrainingDuration)
    (hparse : w.urlParse exec.config.SidecarUrl = .ok u)
    (hlen : 12 ≤ len exec.containerID)
    (hwatch : exec.watcherDone = none)
    (hfail : ∀ call url ct, exec.fetcher.Post call url ct ≠ .resp 202)
    (hfuel : N + 2 ≤ fuel) :
    ∃ r, notifyDrain w exec fuel = some r ∧ r.posts.length = N + 1 ∧
      ∃ t, r.events.getLast? =
          some (Event.wait t (t + exec.config.SidecarDrainingDuration.toNat)) ∧
        r.outcome = .returned (t + exec.config.SidecarDrainingDuration.toNat) := by
  obtain ⟨r, hr⟩ := notifyDrain_terminates w exec (by rw [hN]; exact hmax) fuel
    (by rw [hN]; omega)
  obtain ⟨st, hst, hrst⟩ := notifyDrain_loop w exec fuel u r hcheck (by omega) hparse hlen hr
  obtain ⟨st', hst', hcount⟩ := retryLoop_all_fail exec
    { Scheme := u.Scheme, Host := u.Host,
      Path := bytesOf "/api/services/" ++ (bytesOf exec.containerID).take 12 ++
        bytesOf "/drain" }
    (by rw [hN]; exact hmax) hwatch hfail fuel 0
    { now := 0, calls := 0,
      events := [Event.warnSetting ((bytesOf exec.containerID).take 12)] }
    (le_refl 0) (by rw [hN]; omega)
  rw [hst] at hst'
  cases hst'
  refine ⟨r, hr, ?_, st.now, ?_, ?_⟩
  · rw [hrst, finalWait_posts, hcount, hN]
    simp [Event.isPost]
  · rw [hrst]
    unfold finalWait
    simp only [not_le.mpr hdur, if_false, hwatch]
    simp
  · rw [hrst]
    unfold finalWait
    simp only [not_le.mpr hdur, if_false, hwatch]

end SidecarExecutor

namespace SidecarExecutor

theorem failingFetcher_never_accepts (d : Nat) :
    ∀ (call : Nat) (url ct : String), (failingFetcher d).Post call url ct ≠ .resp 202 := by
  intro call url ct
  simp only [failingFetcher]
  split_ifs <;> simp

theorem notifyDrain_attempts_witness :
    ∃ r, notifyDrain sampleWorld (sampleExec 3 10 100 "0123456789abcdef" none) 5 = some r ∧
      r.posts.length = 3 + 1 ∧
      ∃ t, r.events.getLast? = some (Event.wait t (t + (100 : Int).toNat)) ∧
        r.outcome = .returned (t + (100 : Int).toNat) :=
  notifyDrain_attempts sampleWorld (sampleExec 3 10 100 "0123456789abcdef" none)
    { Scheme := "http", Host := "localhost:7777", Path := bytesOf "/state.json" } 3 5
    rfl (by norm_num) (by decide) (by decide) rfl (by decide) rfl
    (failingFetcher_never_accepts 1) (by norm_num)

theorem wrapInt_range (x : Int) : -2 ^ 63 ≤ wrapInt x ∧ wrapInt x < 2 ^ 63 := by
  unfold wrapInt
  norm_num
  omega

/-- With the largest `int` as retry count, a registry that never accepts and a
watcher that never finishes, the loop test never fails: the counter wraps
round, and no loop bound suffices. -/
theorem retryLoop_unbounded (exec : sidecarExecutor) (u : URL)
    (hN : exec.config.SidecarRetryCount = 2 ^ 63 - 1)
    (hwatch : exec.watcherDone = none)
    (hfail : ∀ call url ct, exec.fetcher.Post call url ct ≠ .resp 202) (fuel : Nat) :
    ∀ (i : Int) (st : LoopState), i < 2 ^ 63 → retryLoop exec u fuel i st = none := by
  induction fuel with
  | zero => intro i st _; rfl
  | succ fuel ih =>
    intro i st hi
    rw [retryLoop_succ]
    have h1 : i ≤ exec.config.SidecarRetryCount := by rw [hN]; omega
    have hw : ∀ t, watcherClosed exec t = false := by
      intro t; simp [watcherClosed, hwatch]
    rw [if_pos h1, if_neg (drainer_fail exec u st.calls hfail), hw]
    simp only [Bool.false_eq_true, if_false]
    exact ih _ _ (wrapInt_range _).2

/-- The run with the largest `int` as retry count over the failing registry
does not finish within any loop bound. -/
theorem notifyDrain_unbounded (fuel : Nat) :
    notifyDrain sampleWorld (sampleExec (2 ^ 63 - 1) 10 100 "0123456789abcdef" none) fuel =
      none := by
  have h := retryLoop_unbounded (sampleExec (2 ^ 63 - 1) 10 100 "0123456789abcdef" none)
    { Scheme := "http", Host := "localhost:7777",
      Path := bytesOf "/api/services/" ++ bytesOf "0123456789ab" ++ bytesOf "/drain" }
    rfl rfl (failingFetcher_never_accepts 1) fuel 0
    { now := 0, calls := 0, events := [Event.warnSetting (bytesOf "0123456789ab")] }
    (by norm_num)
  have hs : sliceTo (bytesOf "0123456789abcdef") 12 = some (bytesOf "0123456789ab") := by decide
  unfold notifyDrain
  rw [if_neg (by decide)]
  simp only [sampleExec, sampleConfig, sampleWorld, sampleParse, if_true]
  rw [if_neg (by decide)]
  simp only [hs]
  simp only [sampleExec, sampleConfig] at h
  rw [h]

/-- C1 as stated fails: with SidecarRetryCount = 3, a registry that never
returns 202 and a watcher that never finishes, notifyDrain makes 4 POST
attempts, not 3, before the final wait. Besides, with the non-zero draining
duration -1 it makes the 4 attempts and then panics in time.NewTicker instead
of waiting; with a SidecarUrl that does not parse it makes no attempt; and with
the largest int as retry count the attempts never end. -/
theorem notifyDrain_attempts_counterexample :
    (notifyDrain sampleWorld (sampleExec 3 10 100 "0123456789abcdef" none) 8).map
        (fun r => (r.posts.length, r.outcome)) = some (4, Outcome.returned 144) ∧
    (notifyDrain sampleWorld (sampleExec 3 10 (-1) "0123456789abcdef" none) 8).map
        (fun r => (r.posts.length, r.outcome)) =
      some (4, Outcome.panicked "non-positive interval for NewTicker") ∧
    (notifyDrain sampleWorld
        { sampleExec 3 10 100 "0123456789abcdef" none with
          config := { sampleConfig 3 10 100 with SidecarUrl := ":" } } 8).map
        (fun r => (r.posts.length, r.outcome)) = some (0, Outcome.returned 0) ∧
    (∀ fuel, notifyDrain sampleWorld
        (sampleExec (2 ^ 63 - 1) 10 100 "0123456789abcdef" none) fuel = none) :=
  ⟨by decide, by decide, by decide, notifyDrain_unbounded⟩

/-- C3: the code makes a POST after the watcher-done signal has fired. With
retry count 3, retry delay 10, draining duration 100, every POST failing after
one clock unit and the watchers done at instant 5 (the channel closed at once),
the first inter-attempt delay, entered at 1, is a time.Sleep that runs to its
end at 11, where a second POST is entered, 6 units after the signal; only the
poll after that POST sees the signal, and the final wait then returns at once.
When the watchers are done at the entry already but the goroutine that closes
the channel is one unit late and the POST returns at once, the first poll
takes the default branch, and the run again sleeps and posts a second time.
The final select, in contrast, returns at the very instant the signal fires:
with retry count 0 and the watchers done at 50 the wait entered at 11 ends at
50, not at 111. -/
theorem notifyDrain_post_after_signal :
    ((sampleExec 3 10 100 "0123456789abcdef" (some 5)).watcherDone = some 5 ∧
      (notifyDrain sampleWorld (sampleExec 3 10 100 "0123456789abcdef" (some 5)) 5).map
          (fun r => r.events) =
        some [Event.warnSetting (bytesOf "0123456789ab"),
          Event.post 0 "http://localhost:7777/api/services/0123456789ab/drain" "" none,
          Event.warnFailed 1, Event.sleep 1 10,
          Event.post 11 "http://localhost:7777/api/services/0123456789ab/drain" "" none,
          Event.warnFailed 2, Event.wait 12 12] ∧
      (notifyDrain sampleWorld (sampleExec 3 10 100 "0123456789abcdef" (some 5)) 5).map
          (fun r => (r.postsFrom 6, r.outcome)) =
        some ([Event.post 11 "http://localhost:7777/api/services/0123456789ab/drain" "" none],
          Outcome.returned 12)) ∧
    ((notifyDrain sampleWorld
        { sampleExec 3 10 100 "0123456789abcdef" (some 0) with
          fetcher := failingFetcher 0, closeLag := 1 } 5).map (fun r => r.events) =
      some [Event.warnSetting (bytesOf "0123456789ab"),
        Event.post 0 "http://localhost:7777/api/services/0123456789ab/drain" "" none,
        Event.warnFailed 1, Event.sleep 0 10,
        Event.post 10 "http://localhost:7777/api/services/0123456789ab/drain" "" none,
        Event.warnFailed 2, Event.wait 10 10]) ∧
    ((notifyDrain sampleWorld (sampleExec 0 10 100 "0123456789abcdef" (some 50)) 5).map
        (fun r => r.events) =
      some [Event.warnSetting (bytesOf "0123456789ab"),
        Event.post 0 "http://localhost:7777/api/services/0123456789ab/drain" "" none,
        Event.warnFailed 1, Event.sleep 1 10, Event.wait 11 50]) :=
  ⟨⟨rfl, by decide, by decide⟩, by decide, by decide⟩

end SidecarExecutor
